import Mathlib

/-
Verification of the rule-matching and span-splicing transformation engine of
the code_transformation repository.

The engine works on concrete-syntax-tree nodes serialized by extract_ast.py:
every node is a JSON object with exactly the keys "type", "start_byte",
"end_byte", "text" (a string) and "children" (an ordered list of nodes).
Python text is modelled as a list of characters (`Str`), so Python slicing
text[a:b] is `(t.drop a).take (b - a)` and the splice text[:s] + r + text[e:]
is `t.take s ++ r ++ t.drop e`.  Python `copy.deepcopy` is the identity on
these immutable Lean values; the one place where aliasing is observable
(while_to_for.py mutates its argument in place) is modelled explicitly, see
`transform_while_to_for` below.
-/

/-- Python strings, indexed by byte offset, modelled as lists of characters. -/
abbrev Str := List Char

/-- CST node exactly as produced by ast_to_json in extract_ast.py:
grammar type tag, byte span into the original source buffer, current text,
ordered children.  (The serialized nodes carry no other keys; in particular
there is no "start_line" key, which makes one branch of
ch_constant.is_in_preprocessor_directive dead code.) -/
inductive Node where
  | mk (type : String) (start_byte end_byte : Nat) (text : Str) (children : List Node)

/-- Field access node["type"]. -/
def Node.type : Node → String
  | .mk t _ _ _ _ => t

/-- Field access node["start_byte"]. -/
def Node.start_byte : Node → Nat
  | .mk _ s _ _ _ => s

/-- Field access node["end_byte"]. -/
def Node.end_byte : Node → Nat
  | .mk _ _ e _ _ => e

/-- Field access node["text"]. -/
def Node.text : Node → Str
  | .mk _ _ _ tx _ => tx

/-- Field access node["children"] (node.get("children", []) likewise, since
the key is always present in the serialized trees). -/
def Node.children : Node → List Node
  | .mk _ _ _ _ cs => cs

mutual
/-- Structural equality test on nodes: Python dict equality node1 == node2. -/
def Node.beq : Node → Node → Bool
  | .mk t1 s1 e1 x1 c1, .mk t2 s2 e2 x2 c2 =>
    t1 == t2 && s1 == s2 && e1 == e2 && x1 == x2 && Node.beqList c1 c2

/-- Structural equality test on child lists. -/
def Node.beqList : List Node → List Node → Bool
  | [], [] => true
  | a :: as, b :: bs => Node.beq a b && Node.beqList as bs
  | _, _ => false
end

mutual
theorem Node.beq_iff : ∀ a b : Node, Node.beq a b = true ↔ a = b
  | .mk t1 s1 e1 x1 c1, .mk t2 s2 e2 x2 c2 => by
    simp only [Node.beq, Bool.and_eq_true, beq_iff_eq, Node.mk.injEq]
    rw [Node.beqList_iff c1 c2]
    tauto

theorem Node.beqList_iff : ∀ a b : List Node, Node.beqList a b = true ↔ a = b
  | [], [] => by simp [Node.beqList]
  | [], _ :: _ => by simp [Node.beqList]
  | _ :: _, [] => by simp [Node.beqList]
  | a :: as, b :: bs => by
    simp only [Node.beqList, Bool.and_eq_true, List.cons.injEq]
    exact and_congr (Node.beq_iff a b) (Node.beqList_iff as bs)
end

instance : DecidableEq Node := fun a b =>
  decidable_of_iff (Node.beq a b = true) (Node.beq_iff a b)

/-! The Direct Span Splice engine.  It is the loop shared verbatim by
compound_assignment.transform_ast, unary_operator.transform_ast,
ch_relation.transform_relational_expressions and ch_rename.transform_names:
sort the matched nodes by start_byte descending and, in that order, replace
root_text[start:end] by the synthesized replacement on one mutable copy of
the root text. -/

/-- One Python splice root_text[:s] + r + root_text[e:]. -/
def spliceAt (t : Str) (s e : Nat) (r : Str) : Str :=
  t.take s ++ r ++ t.drop e

/-- One iteration of the splice loop: replace the span of match n by its
synthesized replacement f n. -/
def applyMatch (f : Node → Str) (t : Str) (n : Node) : Str :=
  spliceAt t n.start_byte n.end_byte (f n)

/-- The comparison key of sorted(expressions, key=lambda x: x["start_byte"],
reverse=True): a comes no later than b when b's start is at most a's. -/
def byStartDesc (a b : Node) : Prop := b.start_byte ≤ a.start_byte

instance : DecidableRel byStartDesc := fun a b =>
  inferInstanceAs (Decidable (b.start_byte ≤ a.start_byte))

instance : IsTotal Node byStartDesc := ⟨fun a b => Nat.le_total b.start_byte a.start_byte⟩

instance : IsTrans Node byStartDesc := ⟨fun _ _ _ h h' => Nat.le_trans h' h⟩

/-- sorted(expressions, key=lambda x: x["start_byte"], reverse=True). -/
def sortByStartDesc (ms : List Node) : List Node :=
  List.insertionSort byStartDesc ms

/-- The whole splice loop of transform_ast: fold the edits over the root
text in descending start order. -/
def directSplice (f : Node → Str) (t : Str) (ms : List Node) : Str :=
  (sortByStartDesc ms).foldl (applyMatch f) t

/-- Span a is nested inside span b (containment of byte intervals). -/
def SpanNested (a b : Node) : Prop :=
  b.start_byte ≤ a.start_byte ∧ a.end_byte ≤ b.end_byte

/-- Neither span contains the other. -/
def SpanNonNested (a b : Node) : Prop := ¬ SpanNested a b ∧ ¬ SpanNested b a

/-- Both spans, as a pair, for distinctness statements. -/
def span (n : Node) : Nat × Nat := (n.start_byte, n.end_byte)

/-- Strict right-to-left processing order: each listed match starts strictly
to the right of every match listed after it. -/
def ltStartDesc (a b : Node) : Prop := b.start_byte < a.start_byte

instance : DecidableRel ltStartDesc := fun a b =>
  inferInstanceAs (Decidable (b.start_byte < a.start_byte))

instance (a b : Node) : Decidable (SpanNested a b) :=
  inferInstanceAs (Decidable (_ ∧ _))

instance (a b : Node) : Decidable (SpanNonNested a b) :=
  inferInstanceAs (Decidable (_ ∧ _))

instance : IsAntisymm Node ltStartDesc :=
  ⟨fun _ _ h h' => absurd (Nat.lt_trans h h') (Nat.lt_irrefl _)⟩

/-- A listing of matches in right-to-left order of their start offsets. -/
def RightToLeft (l : List Node) : Prop := l.Sorted ltStartDesc

instance : DecidablePred RightToLeft := fun l =>
  inferInstanceAs (Decidable (l.Pairwise ltStartDesc))

theorem starts_ne_of_nonNested {a b : Node} (h1 : span a ≠ span b)
    (h2 : SpanNonNested a b) : a.start_byte ≠ b.start_byte := by
  intro hs
  rcases Nat.le_total a.end_byte b.end_byte with he | he
  · exact h2.1 ⟨Nat.le_of_eq hs.symm, he⟩
  · rcases Nat.eq_or_lt_of_le he with he' | he'
    · exact h1 (by simp [span, hs, he'.symm, Prod.ext_iff])
    · exact h2.2 ⟨Nat.le_of_eq hs, he⟩

theorem pairwise_and_of_pairwise {α : Type} {R S : α → α → Prop} :
    ∀ {l : List α}, l.Pairwise R → l.Pairwise S →
      l.Pairwise (fun a b => R a b ∧ S a b)
  | [], _, _ => List.Pairwise.nil
  | _ :: _, .cons hR hR', .cons hS hS' =>
    List.Pairwise.cons (fun b hb => ⟨hR b hb, hS b hb⟩)
      (pairwise_and_of_pairwise hR' hS')

theorem take_spliceAt_of_le {t r : Str} {s e k : Nat} (hk : k ≤ s)
    (ht : k ≤ t.length) : (spliceAt t s e r).take k = t.take k := by
  unfold spliceAt
  rw [List.append_assoc, List.take_append_of_le_length, List.take_take,
    Nat.min_eq_left hk]
  rw [List.length_take]
  omega

/-- C1: for matches with pairwise distinct, non-nested spans, the Direct
Span Splice (fold of the single-buffer splices over the matches sorted by
start offset descending) produces the same root text as processing the
matches one at a time in any right-to-left listing; and a single edit leaves
every prefix of the buffer that ends at or before its start offset — hence
the absolute offsets of every match lying strictly to its left — unchanged. -/
theorem C1_direct_span_splice_right_to_left (f : Node → Str) (t : Str)
    (ms l : List Node)
    (hpairs : ms.Pairwise fun a b => span a ≠ span b ∧ SpanNonNested a b)
    (hperm : l.Perm ms) (hord : RightToLeft l)
    (hbound : ∀ n ∈ ms, n.end_byte ≤ t.length) :
    directSplice f t ms = l.foldl (applyMatch f) t ∧
    ∀ a ∈ ms, ∀ b ∈ ms, b.end_byte ≤ a.start_byte →
      (applyMatch f t a).take b.end_byte = t.take b.end_byte := by
  constructor
  · have hne : ms.Pairwise (fun a b => a.start_byte ≠ b.start_byte) :=
      hpairs.imp (fun h => starts_ne_of_nonNested h.1 h.2)
    have hperm2 : (sortByStartDesc ms).Perm ms :=
      List.perm_insertionSort byStartDesc ms
    have hne2 : (sortByStartDesc ms).Pairwise
        (fun a b => a.start_byte ≠ b.start_byte) :=
      (hperm2.pairwise_iff (fun h h' => h (h'.symm)) ).mpr hne
    have hsorted : (sortByStartDesc ms).Sorted byStartDesc :=
      List.sorted_insertionSort byStartDesc ms
    have hstrict : (sortByStartDesc ms).Sorted ltStartDesc := by
      refine (pairwise_and_of_pairwise hsorted hne2).imp ?_
      intro a b h
      exact Nat.lt_of_le_of_ne h.1 (fun hh => h.2 hh.symm)
    have hl : l = sortByStartDesc ms :=
      List.eq_of_perm_of_sorted (hperm.trans hperm2.symm) hord hstrict
    rw [directSplice, hl]
  · intro a _ b hb hle
    exact take_spliceAt_of_le hle (hbound b hb)

/-- Concrete nodes for witnesses: a relational expression i < n at bytes
0..5 of the buffer, and a second one a > b at bytes 7..12. -/
def wNodeA : Node := .mk "binary_expression" 0 5 "i < n".toList []

/-- Second witness node, lying strictly to the right of wNodeA. -/
def wNodeB : Node := .mk "binary_expression" 7 12 "a > b".toList []

theorem C1_direct_span_splice_right_to_left_witness :
    directSplice (fun n => '!' :: n.text) "i < n; a > b".toList [wNodeA, wNodeB] =
      [wNodeB, wNodeA].foldl (applyMatch (fun n => '!' :: n.text))
        "i < n; a > b".toList ∧
    ∀ a ∈ [wNodeA, wNodeB], ∀ b ∈ [wNodeA, wNodeB],
      b.end_byte ≤ a.start_byte →
      (applyMatch (fun n => '!' :: n.text) "i < n; a > b".toList a).take b.end_byte =
        ("i < n; a > b".toList).take b.end_byte :=
  C1_direct_span_splice_right_to_left (fun n => '!' :: n.text)
    ("i < n; a > b".toList) [wNodeA, wNodeB] [wNodeB, wNodeA]
    (by decide) (by decide) (by decide) (by decide)

/-! Embedding of transformations/calculation/compound_assignment.py. -/

/-- Python str.count scanning helper: counts non-overlapping occurrences,
skipping the length of the needle after each hit. -/
def countOccsAux (needle : Str) : Nat → Str → Nat
  | _, [] => 0
  | s+1, _ :: rest => countOccsAux needle s rest
  | 0, h :: rest =>
    if needle.isPrefixOf (h :: rest) then 1 + countOccsAux needle (needle.length - 1) rest
    else countOccsAux needle 0 rest

/-- Python text.count(sub): number of non-overlapping occurrences of sub,
scanning left to right (an empty needle counts len+1 positions). -/
def countOccs (needle : Str) (hay : Str) : Nat :=
  if needle = [] then hay.length + 1
  else countOccsAux needle 0 hay

/-- Python str.strip(): remove leading and trailing whitespace. -/
def pyStrip (s : Str) : Str :=
  ((s.dropWhile Char.isWhitespace).reverse.dropWhile Char.isWhitespace).reverse

/-- The COMPOUND_TO_BINARY operator table. -/
def COMPOUND_TO_BINARY : List (String × String) :=
  [("+=", "+"), ("-=", "-"), ("*=", "*"), ("/=", "/"), ("%=", "%"),
   ("<<=", "<<"), (">>=", ">>"), ("&=", "&"), ("|=", "|"), ("^=", "^")]

/-- Lookup COMPOUND_TO_BINARY[op] (a missing key would raise in Python and
never occurs: all call sites pass a key of the table). -/
def compoundToBinary (op : String) : String :=
  ((COMPOUND_TO_BINARY.find? (fun p => p.1 == op)).map Prod.snd).getD ""

/-- Lookup BINARY_TO_COMPOUND[op], the inverted table. -/
def binaryToCompound (op : String) : String :=
  ((COMPOUND_TO_BINARY.find? (fun p => p.2 == op)).map Prod.fst).getD ""

/-- ALL_COMPOUND_OPS = list(COMPOUND_TO_BINARY.keys()). -/
def ALL_COMPOUND_OPS : List String := COMPOUND_TO_BINARY.map Prod.fst

/-- compound_assignment.get_variable_expression (identical copy in
unary_operator.py, minus the field/pointer case there). -/
def get_variable_expression (n : Node) : Option Str :=
  if n.type == "identifier" then some n.text
  else if n.type == "subscript_expression" then
    if n.children.any (fun c => c.type == "assignment_expression") then none
    else some n.text
  else if n.type == "field_expression" || n.type == "pointer_expression" then
    some n.text
  else none

/-- unary_operator.get_variable_expression: same but without the
field/pointer case. -/
def get_variable_expression_unary (n : Node) : Option Str :=
  if n.type == "identifier" then some n.text
  else if n.type == "subscript_expression" then
    if n.children.any (fun c => c.type == "assignment_expression") then none
    else some n.text
  else none

mutual
/-- compound_assignment.count_compound_assignments. -/
def count_compound_assignments : Node → Nat
  | .mk ty _ _ _ cs =>
    (match cs with
     | _ :: op :: _ =>
       if ty == "assignment_expression" && ALL_COMPOUND_OPS.contains op.type
       then 1 else 0
     | _ => 0) + countCompoundList cs

/-- Sum of count_compound_assignments over the children loop. -/
def countCompoundList : List Node → Nat
  | [] => 0
  | c :: cs => count_compound_assignments c + countCompoundList cs
end

/-- compound_assignment.contains_multiple_compound_assignments. -/
def contains_multiple_compound_assignments (n : Node) : Bool :=
  let count :=
    if n.type == "expression_statement" then
      match n.children.find? (fun c => c.type != ";" && c.type != "\x7d") with
      | some c => count_compound_assignments c
      | none => 0
    else count_compound_assignments n
  count > 1

/-- Statement node types recognized by find_parent_statement. -/
def STATEMENT_TYPES : List String :=
  ["expression_statement", "if_statement", "for_statement", "while_statement",
   "do_statement", "compound_statement", "declaration"]

mutual
/-- compound_assignment.find_parent_statement: innermost enclosing statement
node of target inside n (None both when target is not found and when no
statement encloses it, exactly as the Python merges the two). -/
def find_parent_statement : Node → Node → Option Node → Option Node
  | n@(.mk _ _ _ _ cs), target, parent =>
    if n = target then parent
    else
      find_parent_statement_list cs target
        (if STATEMENT_TYPES.contains n.type then some n else parent)

/-- The children loop of find_parent_statement. -/
def find_parent_statement_list : List Node → Node → Option Node → Option Node
  | [], _, _ => none
  | c :: cs, target, parent =>
    match find_parent_statement c target parent with
    | some p => some p
    | none => find_parent_statement_list cs target parent
end

/-- compound_assignment.is_compound_assignment. -/
def is_compound_assignment (n : Node) (operator : String) : Bool :=
  match n.children with
  | [l, op, _] =>
    n.type == "assignment_expression" && op.type == operator &&
      op.text == operator.toList && (get_variable_expression l).isSome
  | _ => false

/-- Characters of the regex class in is_non_transformable_expression. -/
def OP_CHARS : List Char := ['+', '-', '*', '/', '%', '&', '|', '^', '<', '>']

/-- compound_assignment.is_non_transformable_expression.  The source reads
children[1] and children[2] into unused locals (an IndexError on fewer than
three children; every caller guarantees exactly three). -/
def is_non_transformable_expression (n : Node) : Bool :=
  if n.type == "binary_expression" then
    match n.children with
    | l :: _ :: _ :: _ =>
      match get_variable_expression l with
      | none => false
      | some var_name =>
        if var_name = [] then false
        else
          let pattern_text := n.text.filter (fun ch => ch != '(' && ch != ')')
          if countOccs var_name pattern_text > 1 then
            decide ((pattern_text.filter (fun ch => OP_CHARS.contains ch)).length > 1)
          else false
    | _ => false
  else false

/-- compound_assignment.is_expanded_assignment. -/
def is_expanded_assignment (n : Node) (operator : String) : Bool :=
  match n.children with
  | [l, aop, r] =>
    if n.type == "assignment_expression" then
      match get_variable_expression l with
      | none => false
      | some lexpr =>
        if aop.type != "=" then false
        else
          match r.children with
          | [rl, rop, _] =>
            if r.type == "binary_expression" then
              match get_variable_expression rl with
              | none => false
              | some rlexpr =>
                if rop.type == operator && rop.text == operator.toList &&
                    lexpr == rlexpr then
                  !(is_non_transformable_expression r)
                else false
            else false
          | _ => false
    else false
  | _ => false

/-- compound_assignment.should_skip_node. -/
def should_skip_node (n : Node) (root : Node) : Bool :=
  match find_parent_statement root n none with
  | some p => contains_multiple_compound_assignments p
  | none => false

mutual
/-- compound_assignment.find_nodes with explicit parent_root (the recursion
keeps the original root for the context checks). -/
def find_nodes_go (pf : Node → String → Bool) (operator : String)
    (root : Node) : Node → List Node
  | n@(.mk _ _ _ _ cs) =>
    (if pf n operator && !(should_skip_node n root) then [n] else []) ++
      find_nodes_list pf operator root cs

/-- The children loop of find_nodes. -/
def find_nodes_list (pf : Node → String → Bool) (operator : String)
    (root : Node) : List Node → List Node
  | [] => []
  | c :: cs => find_nodes_go pf operator root c ++ find_nodes_list pf operator root cs
end

/-- compound_assignment.find_nodes (parent_root defaults to the tree root). -/
def find_nodes (pf : Node → String → Bool) (operator : String) (n : Node) :
    List Node :=
  find_nodes_go pf operator n n

/-- Replace the root text (modified_ast["text"] = root_text). -/
def Node.withText : Node → Str → Node
  | .mk ty s e _ cs, tx => .mk ty s e tx cs

/-- compound_assignment.transform_ast: deep-copy the tree (identity on
values), find all matches, and splice their replacements right-to-left into
the root text. -/
def transform_ast (n : Node) (pf : Node → String → Bool) (operator : String)
    (rf : Node → String → Str) : Node :=
  let expressions := find_nodes pf operator n
  if expressions = [] then n
  else n.withText (directSplice (fun e => rf e operator) n.text expressions)

/-- compound_assignment.create_expanded_assignment. -/
def create_expanded_assignment (n : Node) (compound_op : String) : Str :=
  match n.children with
  | l :: _ :: r :: _ =>
    let var_expr := l.text
    let value_expr := r.text
    let binary_op := compoundToBinary compound_op
    let needs_parentheses :=
      ["binary_expression", "conditional_expression", "logical_expression"].contains r.type ||
        (match value_expr with
         | c :: _ => c == '+' || c == '-'
         | [] => false)
    let value_expr := if needs_parentheses then '(' :: value_expr ++ [')'] else value_expr
    var_expr ++ " = ".toList ++ var_expr ++ [' '] ++ binary_op.toList ++ [' '] ++ value_expr
  | _ => []

/-- compound_assignment.create_compound_assignment. -/
def create_compound_assignment (n : Node) (binary_op : String) : Str :=
  match n.children with
  | l :: _ :: r :: _ =>
    let var_expr := l.text
    match r.children with
    | _ :: _ :: ro :: _ =>
      let value_expr := ro.text
      let compound_op := binaryToCompound binary_op
      let value_expr :=
        if value_expr.head? = some '(' && value_expr.getLast? = some ')' then
          let inner_expr := pyStrip (value_expr.drop 1).dropLast
          if inner_expr.count '(' = inner_expr.count ')' then inner_expr
          else value_expr
        else value_expr
      var_expr ++ [' '] ++ compound_op.toList ++ [' '] ++ value_expr
    | _ => []
  | _ => []

/-! Embedding of transformations/clonegen/ch_relation.py. -/

/-- The OPPOSITE_OPERATORS table. -/
def OPPOSITE_OPERATORS : List (String × String) :=
  [("<", ">"), (">", "<"), ("<=", ">="), (">=", "<=")]

/-- Keys of OPPOSITE_OPERATORS, for the membership tests op in table. -/
def OPPOSITE_KEYS : List String := OPPOSITE_OPERATORS.map Prod.fst

/-- Lookup OPPOSITE_OPERATORS[op] by operator text. -/
def oppositeOp (op : Str) : Str :=
  ((OPPOSITE_OPERATORS.find? (fun p => p.1.toList == op)).map
    (fun p => p.2.toList)).getD []

mutual
/-- ch_relation.has_side_effects, with the branches in source order.  Every
serialized node has a "text" key, so the bare containment check for an
equals sign always runs; on a binary_expression node with fewer than three
children the source would raise an IndexError (modelled as false, and
unreachable from the call sites, which check the child count first). -/
def has_side_effects : Node → Bool
  | .mk ty _ _ tx cs =>
    if ty == "update_expression" then true
    else if ty == "assignment_expression" then true
    else if ty == "call_expression" then true
    else if tx.contains '=' && ty != "binary_expression" then true
    else if ty == "binary_expression" then
      match cs with
      | a :: op :: rest =>
        if op.text.contains '=' then true
        else
          match rest with
          | b :: _ => has_side_effects a || has_side_effects b
          | [] => false
      | _ => false
    else if ty == "parenthesized_expression" then hseFirstNonParen cs
    else if ty == "subscript_expression" then hseSubscriptList cs
    else if ty == "pointer_expression" then hseFirstNonPtr cs
    else false

/-- The parenthesized_expression loop of has_side_effects: recurse into the
first child that is not a bare parenthesis token, default false. -/
def hseFirstNonParen : List Node → Bool
  | [] => false
  | c :: cs =>
    if c.type == "(" || c.type == ")" then hseFirstNonParen cs
    else has_side_effects c

/-- The subscript_expression loop of has_side_effects. -/
def hseSubscriptList : List Node → Bool
  | [] => false
  | (.mk cty cs2 ce2 ctx ccs) :: cs =>
    if cty == "[" || cty == "]" then hseSubscriptList cs
    else if cty == "subscript_argument_list" then
      if hseArgList ccs then true else hseSubscriptList cs
    else if has_side_effects (.mk cty cs2 ce2 ctx ccs) then true
    else hseSubscriptList cs

/-- The subscript_argument_list inner loop of has_side_effects. -/
def hseArgList : List Node → Bool
  | [] => false
  | a :: as =>
    if a.type == "[" || a.type == "]" then hseArgList as
    else if has_side_effects a then true
    else hseArgList as

/-- The pointer_expression loop of has_side_effects: recurse into the first
child that is not a pointer operator token, default false. -/
def hseFirstNonPtr : List Node → Bool
  | [] => false
  | c :: cs =>
    if c.type == "*" || c.type == "&" then hseFirstNonPtr cs
    else has_side_effects c
end

mutual
/-- ch_relation.get_variables: the texts of all identifier nodes of an
expression (a Python set; modelled as the collected list, membership being
all that is ever used of it). -/
def get_variables : Node → List Str
  | .mk ty _ _ tx cs =>
    if ty == "identifier" then [tx]
    else if ty == "pointer_expression" then getVarsPtrList cs
    else getVarsList cs

/-- The pointer_expression loop of get_variables: skip operator tokens. -/
def getVarsPtrList : List Node → List Str
  | [] => []
  | c :: cs =>
    (if c.type == "*" || c.type == "&" then [] else get_variables c) ++
      getVarsPtrList cs

/-- The children loop of get_variables. -/
def getVarsList : List Node → List Str
  | [] => []
  | c :: cs => get_variables c ++ getVarsList cs
end

/-- Emptiness of left_vars.intersection(right_vars). -/
def varsDisjoint (a b : List Str) : Bool :=
  a.all (fun v => !(b.contains v))

/-- Arithmetic operators whitelisted by is_safe_expression. -/
def ARITH_OPS : List String := ["+", "-", "*", "/", "%"]

mutual
/-- ch_relation.is_safe_expression, with the branches in source order (same
IndexError caveat as has_side_effects on short binary_expression nodes). -/
def is_safe_expression : Node → Bool
  | .mk ty _ _ tx cs =>
    if ty == "identifier" || ty == "number_literal" then true
    else if ty == "parenthesized_expression" then safeFirstNonParen cs
    else if ty == "binary_expression" then
      match cs with
      | a :: op :: rest =>
        if ARITH_OPS.contains op.type &&
            (ARITH_OPS.map String.toList).contains op.text then
          match rest with
          | b :: _ => is_safe_expression a && is_safe_expression b
          | [] => false
        else false
      | _ => false
    else if ty == "subscript_expression" then safeSubscriptList cs
    else if ty == "pointer_expression" then safeFirstNonPtr cs
    else if ty == "update_expression" || ty == "assignment_expression" then true
    else if ty == "call_expression" then false
    else if tx.contains '=' && ty != "binary_expression" then false
    else false

/-- The parenthesized_expression loop of is_safe_expression, default true. -/
def safeFirstNonParen : List Node → Bool
  | [] => true
  | c :: cs =>
    if c.type == "(" || c.type == ")" then safeFirstNonParen cs
    else is_safe_expression c

/-- The subscript_expression loop of is_safe_expression. -/
def safeSubscriptList : List Node → Bool
  | [] => true
  | (.mk cty cs2 ce2 ctx ccs) :: cs =>
    if cty == "[" || cty == "]" then safeSubscriptList cs
    else if cty == "subscript_argument_list" then
      if safeArgList ccs then safeSubscriptList cs else false
    else if is_safe_expression (.mk cty cs2 ce2 ctx ccs) then safeSubscriptList cs
    else false

/-- The subscript_argument_list inner loop of is_safe_expression. -/
def safeArgList : List Node → Bool
  | [] => true
  | a :: as =>
    if a.type == "[" || a.type == "]" then safeArgList as
    else if is_safe_expression a then safeArgList as
    else false

/-- The pointer_expression loop of is_safe_expression, default true. -/
def safeFirstNonPtr : List Node → Bool
  | [] => true
  | c :: cs =>
    if c.type == "*" || c.type == "&" then safeFirstNonPtr cs
    else is_safe_expression c
end

/-- ch_relation.is_transformable_relational_expression. -/
def is_transformable_relational_expression (n : Node) : Bool :=
  match n.children with
  | [l, op, r] =>
    if n.type == "binary_expression" then
      if OPPOSITE_KEYS.contains op.type &&
          (OPPOSITE_KEYS.map String.toList).contains op.text then
        if !has_side_effects l && !has_side_effects r then
          is_safe_expression l && is_safe_expression r
        else if has_side_effects l && !has_side_effects r then
          varsDisjoint (get_variables l) (get_variables r)
        else if has_side_effects r && !has_side_effects l then
          varsDisjoint (get_variables l) (get_variables r)
        else false
      else false
    else false
  | _ => false

mutual
/-- ch_relation.find_relational_expressions.  For a parenthesized
expression the source additionally appends a deep copy of every
transformable non-parenthesis child, tagged with three bookkeeping keys
(inside_parentheses, parent_start, parent_end) that no later code ever
reads; the copy is modelled as the child itself.  The plain recursion then
appends the same child again. -/
def find_relational_expressions : Node → List Node
  | n@(.mk ty _ _ _ cs) =>
    (if is_transformable_relational_expression n then [n] else []) ++
      (if ty == "parenthesized_expression" then
        cs.filter (fun c => c.type != "(" && c.type != ")" &&
          is_transformable_relational_expression c)
      else []) ++
      findRelationalList cs

/-- The children loop of find_relational_expressions. -/
def findRelationalList : List Node → List Node
  | [] => []
  | c :: cs => find_relational_expressions c ++ findRelationalList cs
end

/-- ch_relation.create_reversed_expression. -/
def create_reversed_expression (n : Node) : Str :=
  match n.children with
  | l :: op :: r :: _ =>
    r.text ++ [' '] ++ oppositeOp op.text ++ [' '] ++ l.text
  | _ => []

/-- ch_relation.transform_relational_expressions: deep-copy (identity on
values), find all matches, splice the reversed expressions right-to-left
into the root text. -/
def transform_relational_expressions (n : Node) : Node :=
  let expressions := find_relational_expressions n
  if expressions = [] then n
  else n.withText (directSplice create_reversed_expression n.text expressions)

/-- C2: a pass whose match-finding step returns no eligible node returns a
tree whose root text is exactly the input root text, for both the generic
compound-assignment driver and the relational-expression driver. -/
theorem C2_no_match_is_noop (t : Node) (pf : Node → String → Bool)
    (op : String) (rf : Node → String → Str) :
    (find_nodes pf op t = [] → (transform_ast t pf op rf).text = t.text) ∧
    (find_relational_expressions t = [] →
      (transform_relational_expressions t).text = t.text) := by
  constructor <;> intro h <;>
    simp [transform_ast, transform_relational_expressions, h]

/-- A one-identifier tree with no eligible node for either rule. -/
def c2tree : Node := .mk "identifier" 0 1 "x".toList []

theorem C2_no_match_is_noop_witness :
    (transform_ast c2tree (fun _ _ => false) "+=" (fun _ _ => [])).text =
      c2tree.text ∧
    (transform_relational_expressions c2tree).text = c2tree.text :=
  ⟨(C2_no_match_is_noop c2tree (fun _ _ => false) "+=" (fun _ _ => [])).1
      (by decide),
   (C2_no_match_is_noop c2tree (fun _ _ => false) "+=" (fun _ _ => [])).2
      (by decide)⟩

/-- The identifier i, operand of the update expressions below. -/
def c3var_i : Node := .mk "identifier" 0 1 "i".toList []

/-- The update expression i++. -/
def c3inc_i : Node :=
  .mk "update_expression" 0 3 "i++".toList [c3var_i, .mk "++" 1 3 "++".toList []]

/-- The identifier j. -/
def c3var_j : Node := .mk "identifier" 6 7 "j".toList []

/-- The update expression j++. -/
def c3inc_j : Node :=
  .mk "update_expression" 6 9 "j++".toList [c3var_j, .mk "++" 7 9 "++".toList []]

/-- The operator token of the comparisons below. -/
def c3op_lt : Node := .mk "<" 4 5 "<".toList []

/-- The comparison i++ < j++ (side effects on both sides). -/
def c3both : Node :=
  .mk "binary_expression" 0 9 "i++ < j++".toList [c3inc_i, c3op_lt, c3inc_j]

/-- The number literal 5. -/
def c3num5 : Node := .mk "number_literal" 6 7 "5".toList []

/-- The comparison i++ < 5 (side effect on one side only). -/
def c3one : Node :=
  .mk "binary_expression" 0 7 "i++ < 5".toList [c3inc_i, c3op_lt, c3num5]

/-- C3: on a relational binary expression exactly one of whose operands has
side effects, the swap rule matches if and only if the operands share no
variable; in particular i++ < j++ is never matched, while i++ < 5 is
matched and synthesized to 5 > i++. -/
theorem C3_side_effect_isolation (n l op r : Node)
    (hch : n.children = [l, op, r]) (hty : n.type = "binary_expression")
    (hopk : OPPOSITE_KEYS.contains op.type = true)
    (hopt : (OPPOSITE_KEYS.map String.toList).contains op.text = true)
    (hone : has_side_effects l ≠ has_side_effects r) :
    (is_transformable_relational_expression n = true ↔
      varsDisjoint (get_variables l) (get_variables r) = true) ∧
    is_transformable_relational_expression c3both = false ∧
    is_transformable_relational_expression c3one = true ∧
    create_reversed_expression c3one = "5 > i++".toList := by
  refine ⟨?_, by decide, by decide, by decide⟩
  simp only [is_transformable_relational_expression, hch, hty, hopk, hopt]
  cases hl : has_side_effects l <;> cases hr : has_side_effects r <;>
    simp_all

theorem C3_side_effect_isolation_witness :
    (is_transformable_relational_expression c3one = true ↔
      varsDisjoint (get_variables c3inc_i) (get_variables c3num5) = true) ∧
    is_transformable_relational_expression c3both = false ∧
    is_transformable_relational_expression c3one = true ∧
    create_reversed_expression c3one = "5 > i++".toList :=
  C3_side_effect_isolation c3one c3inc_i c3op_lt c3num5 (by decide) (by decide)
    (by decide) (by decide) (by decide)

/-- The identifier a inside the parenthesized comparison below. -/
def c9a : Node := .mk "identifier" 1 2 "a".toList []

/-- The operator token of the parenthesized comparison below. -/
def c9lt : Node := .mk "<" 2 3 "<".toList []

/-- The identifier b inside the parenthesized comparison below. -/
def c9b : Node := .mk "identifier" 3 4 "b".toList []

/-- The comparison a<b, a transformable relational expression. -/
def c9inner : Node := .mk "binary_expression" 1 4 "a<b".toList [c9a, c9lt, c9b]

/-- The parenthesized expression (a<b) around it. -/
def c9paren : Node :=
  .mk "parenthesized_expression" 0 5 "(a<b)".toList
    [.mk "(" 0 1 "(".toList [], c9inner, .mk ")" 4 5 ")".toList []]

/-- C9 evidence: the relational pass hands the splice step the same node
twice (once from the parenthesized-expression special case and once from
the plain recursion), so the match list has two entries with coinciding
spans, and splicing both garbles the root text of (a<b) into (b > a a). -/
theorem C9_duplicate_overlapping_matches :
    find_relational_expressions c9paren = [c9inner, c9inner] ∧
    ¬ ((find_relational_expressions c9paren).Pairwise
        fun a b => span a ≠ span b) ∧
    (transform_relational_expressions c9paren).text = "(b > a a)".toList := by
  decide

/-- Spec-side predicate, from the wording of C5: the text is entirely
enclosed by one matching outermost parenthesis pair. -/
def feAux : Str → Nat → Bool
  | [], _ => false
  | [c], d => c == ')' && d == 1
  | c :: rest, d =>
    if c == '(' then feAux rest (d+1)
    else if c == ')' then decide (1 < d) && feAux rest (d-1)
    else feAux rest d

/-- The text starts with a parenthesis whose matching closer is the final
character. -/
def fullyEnclosedByOuterPair : Str → Bool
  | '(' :: rest => feAux rest 1
  | _ => false

/-- The identifier v, target of the assignments below. -/
def c5v : Node := .mk "identifier" 0 1 "v".toList []

/-- The right operand whose text (a)+(b) starts with a parenthesis and ends
with one, without being enclosed by a matching pair. -/
def c5x : Node := .mk "binary_expression" 8 15 "(a)+(b)".toList []

/-- The right-hand side v + (a)+(b). -/
def c5rhs : Node :=
  .mk "binary_expression" 4 15 "v + (a)+(b)".toList
    [c5v, .mk "+" 6 7 "+".toList [], c5x]

/-- The expanded assignment v = v + (a)+(b). -/
def c5node : Node :=
  .mk "assignment_expression" 0 15 "v = v + (a)+(b)".toList
    [c5v, .mk "=" 2 3 "=".toList [], c5rhs]

/-- C5 counterexample: the right operand text (a)+(b) is not enclosed by a
matching outermost pair, so by the claim it should be kept unchanged, yet
create_compound_assignment strips its first and last characters (its test
only compares parenthesis counts of the inner text). -/
theorem C5_counterexample_strip_non_enclosing :
    fullyEnclosedByOuterPair c5x.text = false ∧
    create_compound_assignment c5node "+" = "v += a)+(b".toList ∧
    create_compound_assignment c5node "+" ≠ "v += (a)+(b)".toList := by
  decide

/-- C5 amended: the compound-to-expanded synthesis maps v op= e to
v = v op e, parenthesizing e exactly when e is a binary, conditional or
logical expression or its text begins with + or -; the expanded-to-compound
synthesis maps v = v op e to v op= e2, where e2 is e with first and last
characters removed and whitespace-trimmed whenever e starts with an opening
and ends with a closing parenthesis and the trimmed inner text carries
equally many opening and closing parentheses (whether or not they form one
enclosing pair), and e2 = e otherwise. -/
theorem C5_amended_synthesis (n l aop r rl rop ro : Node) (cop bop : String)
    (hch : n.children = [l, aop, r]) (hrch : r.children = [rl, rop, ro]) :
    create_expanded_assignment n cop =
      l.text ++ " = ".toList ++ l.text ++ [' '] ++
        (compoundToBinary cop).toList ++ [' '] ++
        (if ["binary_expression", "conditional_expression",
              "logical_expression"].contains r.type
            || r.text.head? == some '+' || r.text.head? == some '-' then
          '(' :: r.text ++ [')']
        else r.text) ∧
    create_compound_assignment n bop =
      l.text ++ [' '] ++ (binaryToCompound bop).toList ++ [' '] ++
        (if ro.text.head? == some '(' && ro.text.getLast? == some ')' &&
            (pyStrip (ro.text.drop 1).dropLast).count '(' ==
              (pyStrip (ro.text.drop 1).dropLast).count ')' then
          pyStrip (ro.text.drop 1).dropLast
        else ro.text) := by
  constructor
  · simp only [create_expanded_assignment, hch]
    cases hrt : r.text with
    | nil => simp
    | cons c rest =>
      by_cases hmem : (["binary_expression", "conditional_expression",
          "logical_expression"].contains r.type) = true <;> simp [hmem] <;>
        exact if_congr (by tauto) rfl rfl
  · simp only [create_compound_assignment, hch, hrch]
    by_cases h1 : (ro.text.head? == some '(' &&
        ro.text.getLast? == some ')') = true
    · by_cases h2 : ((pyStrip (ro.text.drop 1).dropLast).count '(' ==
          (pyStrip (ro.text.drop 1).dropLast).count ')') = true <;>
        simp_all
    · simp_all
      rw [if_neg (by tauto), if_neg (by tauto)]

theorem C5_amended_synthesis_witness :
    create_expanded_assignment c5node "+=" =
      c5v.text ++ " = ".toList ++ c5v.text ++ [' '] ++
        (compoundToBinary "+=").toList ++ [' '] ++
        (if ["binary_expression", "conditional_expression",
              "logical_expression"].contains c5rhs.type
            || c5rhs.text.head? == some '+' || c5rhs.text.head? == some '-' then
          '(' :: c5rhs.text ++ [')']
        else c5rhs.text) ∧
    create_compound_assignment c5node "+" =
      c5v.text ++ [' '] ++ (binaryToCompound "+").toList ++ [' '] ++
        (if c5x.text.head? == some '(' && c5x.text.getLast? == some ')' &&
            (pyStrip (c5x.text.drop 1).dropLast).count '(' ==
              (pyStrip (c5x.text.drop 1).dropLast).count ')' then
          pyStrip (c5x.text.drop 1).dropLast
        else c5x.text) :=
  C5_amended_synthesis c5node c5v (.mk "=" 2 3 "=".toList []) c5rhs c5v
    (.mk "+" 6 7 "+".toList []) c5x "+=" "+" (by decide) (by decide)

/-! Embedding of transformations/clonegen/expression_generator.py.  The
module is randomized: randomness is modelled by an explicit oracle, a list
of arbitrary integers, one consumed per call of the random source, each
reduced into the requested range; every theorem below quantifies over the
oracle.  The generator builds replacement source text through f-strings;
each construction site is modelled as the arithmetic expression tree
(GenExpr) that the produced C++ text parses to under standard precedence,
with division the truncating C++ integer division. -/

/-- The random oracle: the stream of draws still to be consumed. -/
abbrev RNG := List Int

/-- Consume one draw (an exhausted oracle yields 0). -/
def draw : RNG → Int × RNG
  | [] => (0, [])
  | x :: rest => (x, rest)

/-- expression_generator.safe_randint: random.randint(a, b) guarded against
empty ranges; a draw is folded into the closed interval a..b. -/
def safe_randint (a b : Int) (g : RNG) : Int × RNG :=
  if b ≤ a then (a, g)
  else
    ((draw g).1 % (b - a + 1) + a, (draw g).2)

/-- random.choice from a nonempty list: a draw selects the index. -/
def pyChoice (l : List Int) (g : RNG) : Int × RNG :=
  (l.getD ((draw g).1 % l.length).toNat 0, (draw g).2)

/-- Python range(a, b) over integers. -/
def intRange (a b : Int) : List Int :=
  (List.range (b - a).toNat).map (fun k => a + k)

/-- Arithmetic expression tree of the generated replacement text. -/
inductive GenExpr where
  | num : Int → GenExpr
  | add : GenExpr → GenExpr → GenExpr
  | sub : GenExpr → GenExpr → GenExpr
  | mul : GenExpr → GenExpr → GenExpr
  | div : GenExpr → GenExpr → GenExpr
  | neg : GenExpr → GenExpr

/-- C++ evaluation of the generated expression; division is the truncating
integer division. -/
def GenExpr.eval : GenExpr → Int
  | .num n => n
  | .add a b => a.eval + b.eval
  | .sub a b => a.eval - b.eval
  | .mul a b => a.eval * b.eval
  | .div a b => Int.tdiv a.eval b.eval
  | .neg a => - a.eval

/-- Left-associated sum t1 + t2 + ... as the C++ parse of
"( " + " + ".join(terms) + " )". -/
def joinAdd : List Int → GenExpr
  | [] => .num 0
  | t :: ts => ts.foldl (fun e x => .add e (.num x)) (.num t)

/-- Left-associated chain base - t1 - t2 - ... as the C++ parse of
"( " + " - ".join(terms) + " )". -/
def joinSub (base : Int) (ts : List Int) : GenExpr :=
  ts.foldl (fun e x => .sub e (.num x)) (.num base)

/-- The term-collecting loop of create_addition_pattern for three or more
operands; i is the Python loop index, fuel the remaining iterations. -/
def additionTermsAux (oc i : Int) : Nat → Int → RNG → List Int × RNG
  | 0, remaining, g => ([remaining], g)
  | fuel+1, remaining, g =>
    if remaining ≤ 0 then
      let p := additionTermsAux oc (i+1) fuel remaining g
      (0 :: p.1, p.2)
    else
      let pad := if 0 < oc - i - 2 then oc - i - 2 else 0
      let t := safe_randint 0 (max 0 (remaining - pad)) g
      let p := additionTermsAux oc (i+1) fuel (remaining - t.1) t.2
      (t.1 :: p.1, p.2)

/-- expression_generator.create_addition_pattern. -/
def create_addition_pattern (num oc : Int) (g : RNG) : GenExpr × RNG :=
  if oc = 2 then
    if num = 0 then
      let a := safe_randint 1 10 g
      (.add (.num a.1) (.num (-a.1)), a.2)
    else
      let a := safe_randint 0 num g
      (.add (.num a.1) (.num (num - a.1)), a.2)
  else
    let p := additionTermsAux oc 0 (oc - 1).toNat num g
    (joinAdd p.1, p.2)

/-- The attempts loop of create_multiplicative_pattern (five tries; every
iteration in fact returns, so the none case is unreachable but modelled). -/
def multAttempts (num oc : Int) : Nat → RNG → Option GenExpr × RNG
  | 0, g => (none, g)
  | fuel+1, g =>
    let f := safe_randint 2 (min num 10) g
    if num.fmod f.1 = 0 then
      (some (.mul (.num f.1) (.num (num.fdiv f.1))), f.2)
    else
      let remainder := num - (num.fdiv f.1) * f.1
      if 0 < remainder then
        if 3 < oc ∧ 1 < remainder then
          let r := safe_randint 1 (remainder - 1) f.2
          (some (.add (.add (.mul (.num f.1) (.num (num.fdiv f.1)))
            (.num r.1)) (.num (remainder - r.1))), r.2)
        else
          (some (.add (.mul (.num f.1) (.num (num.fdiv f.1)))
            (.num remainder)), f.2)
      else multAttempts num oc fuel f.2

/-- expression_generator.create_multiplicative_pattern. -/
def create_multiplicative_pattern (num oc : Int) (g : RNG) : GenExpr × RNG :=
  if num = 0 then
    let r := safe_randint 1 10 g
    (.mul (.num 0) (.num r.1), r.2)
  else if oc = 2 then
    let c := safe_randint 0 1 g
    let factors := (intRange 2 (min num 20)).filter (fun i => num.fmod i = 0)
    if c.1 = 0 ∧ 1 < num ∧ factors ≠ [] then
      let f := pyChoice factors c.2
      (.mul (.num f.1) (.num (num.fdiv f.1)), f.2)
    else
      let m := safe_randint 2 10 c.2
      (.div (.num (num * m.1)) (.num m.1), m.2)
  else
    let c := safe_randint 0 1 g
    if c.1 = 0 then
      match multAttempts num oc 5 c.2 with
      | (some e, g2) => (e, g2)
      | (none, g2) =>
        let m1 := safe_randint 2 5 g2
        let m2 := safe_randint 2 5 m1.2
        (.div (.div (.num (num * m1.1 * m2.1)) (.num m2.1)) (.num m1.1), m2.2)
    else
      let m := safe_randint 2 5 c.2
      let d := safe_randint 2 5 m.2
      (.div (.mul (.num (num * d.1)) (.num m.1))
        (.mul (.num m.1) (.num d.1)), d.2)

/-- The subtraction-distributing loop of create_subtraction_pattern,
including the final term that lands exactly on the target. -/
def subTermsAux : Nat → Int → RNG → List Int × RNG
  | 0, remaining, g => (if 0 < remaining then [remaining] else [0], g)
  | fuel+1, remaining, g =>
    if remaining ≤ 0 then
      let p := subTermsAux fuel remaining g
      (0 :: p.1, p.2)
    else
      let s := safe_randint 1 (min 10 remaining) g
      let p := subTermsAux fuel (remaining - s.1) s.2
      (s.1 :: p.1, p.2)

/-- expression_generator.create_subtraction_pattern. -/
def create_subtraction_pattern (num oc : Int) (g : RNG) : GenExpr × RNG :=
  if oc = 2 then
    let s := safe_randint 1 20 g
    (.sub (.num (num + s.1)) (.num s.1), s.2)
  else
    let min_base := num + (oc - 1)
    let b := safe_randint min_base (min_base + 20) g
    let p := subTermsAux (oc - 2).toNat (b.1 - num) b.2
    (joinSub b.1 p.1, p.2)

/-- The product-splitting loop of the (a + b) / c branch of
create_mixed_pattern, including the final part. -/
def mixedParts : Nat → Int → RNG → List Int × RNG
  | 0, remaining, g => ([remaining], g)
  | fuel+1, remaining, g =>
    if remaining ≤ 1 then
      let p := mixedParts fuel remaining g
      (0 :: p.1, p.2)
    else
      let q := safe_randint 1 (remaining - 1) g
      let p := mixedParts fuel (remaining - q.1) q.2
      (q.1 :: p.1, p.2)

/-- expression_generator.create_mixed_pattern. -/
def create_mixed_pattern (num oc : Int) (g : RNG) : GenExpr × RNG :=
  if num = 0 ∧ oc ≤ 2 then
    let v := safe_randint 1 10 g
    (.sub (.num v.1) (.num v.1), v.2)
  else if oc ≤ 2 then
    let c := safe_randint 0 2 g
    if c.1 = 0 then create_addition_pattern num 2 c.2
    else if c.1 = 1 then create_subtraction_pattern num 2 c.2
    else create_multiplicative_pattern num 2 c.2
  else
    let c := safe_randint 0 3 g
    if c.1 = 0 then
      if 1 < num then
        let f := safe_randint 1 (max 1 (min num 10)) c.2
        let quotient := num.fdiv f.1
        let remainder := num - f.1 * quotient
        if 0 < remainder then
          (.add (.mul (.num f.1) (.num quotient)) (.num remainder), f.2)
        else (.mul (.num f.1) (.num quotient), f.2)
      else create_addition_pattern num oc c.2
    else if c.1 = 1 then
      if num = 0 then create_addition_pattern num oc c.2
      else
        let d := safe_randint 2 5 c.2
        let product := num * d.1
        if 3 < oc then
          let p := mixedParts (oc - 2).toNat product d.2
          (.div (joinAdd p.1) (.num d.1), p.2)
        else
          let a := safe_randint 1 (product - 1) d.2
          (.div (.add (.num a.1) (.num (product - a.1))) (.num d.1), a.2)
    else if c.1 = 2 then
      if 2 ≤ num then
        let amb := safe_randint 1 (num - 1) c.2
        let d := safe_randint 1 10 amb.2
        let a := amb.1 + d.1
        (.add (.sub (.num a) (.num (a - amb.1))) (.num (num - amb.1)), d.2)
      else create_addition_pattern num oc c.2
    else
      if num = 0 then
        let v := safe_randint 1 10 c.2
        let k := safe_randint 1 5 v.2
        (.mul (.sub (.num v.1) (.num v.1)) (.num k.1), k.2)
      else
        let d := safe_randint 1 5 c.2
        let product := num * d.1
        if 2 < product then
          let f := safe_randint 2 (min (product - 1) 5) d.2
          let quotient := product.fdiv f.1
          let remainder := product - f.1 * quotient
          if 0 < remainder then
            (.div (.add (.mul (.num f.1) (.num quotient)) (.num remainder))
              (.num d.1), f.2)
          else (.div (.mul (.num f.1) (.num quotient)) (.num d.1), f.2)
        else (.div (.num product) (.num d.1), d.2)

/-- expression_generator.transform_number (complexity None draws it from
the magnitude). -/
def transform_number (num : Int) (complexity? : Option Int) (g : RNG) :
    GenExpr × RNG :=
  let c :=
    match complexity? with
    | some c => (c, g)
    | none =>
      if num ≤ 3 then ((1 : Int), g)
      else safe_randint 1 (min 3 (num.fdiv 5 + 1)) g
  let oc := safe_randint 2 (c.1 + 2) c.2
  let pt := safe_randint 0 3 oc.2
  if pt.1 = 0 then create_addition_pattern num oc.1 pt.2
  else if pt.1 = 1 then create_multiplicative_pattern num oc.1 pt.2
  else if pt.1 = 2 then create_subtraction_pattern num oc.1 pt.2
  else create_mixed_pattern num oc.1 pt.2

/-- Python int(s) on the sign-stripped literal text: succeeds exactly on
nonempty all-digit strings, yielding their decimal value. -/
def pyInt? (s : Str) : Option Nat :=
  if s ≠ [] ∧ s.all Char.isDigit then
    some (s.foldl (fun a c => a * 10 + (c.toNat - 48)) 0)
  else none

/-- expression_generator.generate_equivalent_expression, at the level of
the generated expression tree: strip a leading minus sign, parse, derive
the complexity from the magnitude, generate, and re-apply the sign as a
leading unary minus outside the generated expression; an unparseable
literal yields none (the string level returns the input unchanged). -/
def generate_equivalent_expr (number : Str) (g : RNG) : Option GenExpr × RNG :=
  let is_negative := number.head? == some '-'
  let num_str := if is_negative then number.drop 1 else number
  match pyInt? num_str with
  | none => (none, g)
  | some n =>
    let complexity := min 3 (max 1 ((n : Int).fdiv 5 + 1))
    let e := transform_number (n : Int) (some complexity) g
    (some (if is_negative then .neg e.1 else e.1), e.2)

/-- Rendering of the generated tree back to source text (the f-strings of
the source emit the same token sequence with minor per-site whitespace
variations that the parse tree abstracts over). -/
def GenExpr.render : GenExpr → Str
  | .num n => (toString n).toList
  | .add a b => "( ".toList ++ a.render ++ " + ".toList ++ b.render ++ " )".toList
  | .sub a b => "( ".toList ++ a.render ++ " - ".toList ++ b.render ++ " )".toList
  | .mul a b => "( ".toList ++ a.render ++ " * ".toList ++ b.render ++ " )".toList
  | .div a b => "( ".toList ++ a.render ++ " / ".toList ++ b.render ++ " )".toList
  | .neg a => "- ".toList ++ a.render

/-- expression_generator.generate_equivalent_expression at the string
level: an unparseable literal is returned unchanged. -/
def generate_equivalent_expression (number : Str) (g : RNG) : Str × RNG :=
  match generate_equivalent_expr number g with
  | (none, g1) => (number, g1)
  | (some e, g1) => (e.render, g1)

theorem safe_randint_fst_lb (a b : Int) (g : RNG) : a ≤ (safe_randint a b g).1 := by
  unfold safe_randint
  split
  · exact le_refl a
  · have h0 : b - a + 1 ≠ 0 := by omega
    have := Int.emod_nonneg (draw g).1 h0
    simp only
    omega

theorem safe_randint_fst_le {a b : Int} (h : a ≤ b) (g : RNG) :
    (safe_randint a b g).1 ≤ b := by
  unfold safe_randint
  split
  · omega
  · have hpos : 0 < b - a + 1 := by omega
    have := Int.emod_lt_of_pos (draw g).1 hpos
    simp only
    omega

theorem pyChoice_fst_mem {l : List Int} (h : l ≠ []) (g : RNG) :
    (pyChoice l g).1 ∈ l := by
  unfold pyChoice
  have hlen : 0 < (l.length : Int) := by
    cases l with
    | nil => exact absurd rfl h
    | cons x xs => simp
  have h0 : 0 ≤ (draw g).1 % (l.length : Int) := Int.emod_nonneg _ (by omega)
  have h1 : (draw g).1 % (l.length : Int) < l.length := Int.emod_lt_of_pos _ hlen
  have h2 : ((draw g).1 % (l.length : Int)).toNat < l.length := by omega
  simp only [List.getD_eq_getElem?_getD, List.getElem?_eq_getElem h2,
    Option.getD_some]
  exact List.getElem_mem h2

theorem eval_foldl_add (ts : List Int) (e : GenExpr) :
    (ts.foldl (fun e x => GenExpr.add e (.num x)) e).eval = e.eval + ts.sum := by
  induction ts generalizing e with
  | nil => simp
  | cons t ts ih =>
    simp only [List.foldl_cons, ih, List.sum_cons, GenExpr.eval]
    ring

theorem eval_joinAdd (l : List Int) : (joinAdd l).eval = l.sum := by
  cases l with
  | nil => simp [joinAdd, GenExpr.eval]
  | cons t ts => simp [joinAdd, eval_foldl_add, GenExpr.eval]

theorem eval_foldl_sub (ts : List Int) (e : GenExpr) :
    (ts.foldl (fun e x => GenExpr.sub e (.num x)) e).eval = e.eval - ts.sum := by
  induction ts generalizing e with
  | nil => simp
  | cons t ts ih =>
    simp only [List.foldl_cons, ih, List.sum_cons, GenExpr.eval]
    ring

theorem eval_joinSub (base : Int) (l : List Int) :
    (joinSub base l).eval = base - l.sum := by
  simp [joinSub, eval_foldl_sub, GenExpr.eval]

theorem additionTermsAux_sum (fuel : Nat) :
    ∀ (oc i r : Int) (g : RNG), ((additionTermsAux oc i fuel r g).1).sum = r := by
  induction fuel with
  | zero => intro oc i r g; simp [additionTermsAux]
  | succ fuel ih =>
    intro oc i r g
    simp only [additionTermsAux]
    split
    · simp [ih]
    · simp [ih]

theorem create_addition_pattern_eval (num oc : Int) (g : RNG) :
    ((create_addition_pattern num oc g).1).eval = num := by
  unfold create_addition_pattern
  split
  · split
    · simp [GenExpr.eval]
      omega
    · simp [GenExpr.eval]
  · simp [eval_joinAdd, additionTermsAux_sum]

theorem fmul_fdiv_eq {num f : Int} (h : num.fmod f = 0) :
    f * num.fdiv f = num := by
  have := Int.fmod_add_fdiv num f
  linarith

theorem multAttempts_eval (num oc : Int) :
    ∀ (fuel : Nat) (g : RNG) (e : GenExpr) (gout : RNG),
      multAttempts num oc fuel g = (some e, gout) → e.eval = num := by
  intro fuel
  induction fuel with
  | zero => intro g e gout h; simp [multAttempts] at h
  | succ fuel ih =>
    intro g e gout h
    simp only [multAttempts] at h
    split at h
    · rename_i hmod
      simp only [Prod.mk.injEq, Option.some.injEq] at h
      obtain ⟨he, -⟩ := h
      subst he
      simp only [GenExpr.eval]
      exact fmul_fdiv_eq hmod
    · split at h
      · split at h
        · simp only [Prod.mk.injEq, Option.some.injEq] at h
          obtain ⟨he, -⟩ := h
          subst he
          simp only [GenExpr.eval]
          ring
        · simp only [Prod.mk.injEq, Option.some.injEq] at h
          obtain ⟨he, -⟩ := h
          subst he
          simp only [GenExpr.eval]
          ring
      · exact ih _ e gout h

theorem tdiv_mul_mul_cancel {num a b : Int} (ha : a ≠ 0) (hb : b ≠ 0) :
    (num * b * a).tdiv (a * b) = num := by
  have h : num * b * a = num * (a * b) := by ring
  rw [h]
  exact Int.mul_tdiv_cancel num (mul_ne_zero ha hb)

theorem create_multiplicative_pattern_eval (num oc : Int) (g : RNG) :
    ((create_multiplicative_pattern num oc g).1).eval = num := by
  unfold create_multiplicative_pattern
  dsimp only
  split
  · rename_i h0
    simp [GenExpr.eval, h0]
  · split
    · split
      · rename_i hcond
        obtain ⟨-, -, hfne⟩ := hcond
        have hmem := pyChoice_fst_mem hfne (safe_randint 0 1 g).2
        rw [List.mem_filter] at hmem
        have hmod := of_decide_eq_true hmem.2
        simp only [GenExpr.eval]
        exact fmul_fdiv_eq hmod
      · have hlb := safe_randint_fst_lb 2 10 (safe_randint 0 1 g).2
        simp only [GenExpr.eval]
        exact Int.mul_tdiv_cancel num (by omega)
    · split
      · split
        · rename_i e g2 heq
          exact multAttempts_eval num oc 5 _ e g2 heq
        · rename_i g2 heq
          have h1 := safe_randint_fst_lb 2 5 g2
          have h2 := safe_randint_fst_lb 2 5 (safe_randint 2 5 g2).2
          simp only [GenExpr.eval]
          rw [Int.mul_tdiv_cancel _ (by omega)]
          exact Int.mul_tdiv_cancel num (by omega)
      · have h1 := safe_randint_fst_lb 2 5 (safe_randint 0 1 g).2
        have h2 := safe_randint_fst_lb 2 5 (safe_randint 2 5 (safe_randint 0 1 g).2).2
        simp only [GenExpr.eval]
        exact tdiv_mul_mul_cancel (by omega) (by omega)

theorem subTermsAux_sum (fuel : Nat) :
    ∀ (r : Int) (g : RNG), 0 ≤ r → ((subTermsAux fuel r g).1).sum = r := by
  induction fuel with
  | zero =>
    intro r g hr
    simp only [subTermsAux]
    split
    · simp
    · simp
      omega
  | succ fuel ih =>
    intro r g hr
    simp only [subTermsAux]
    split
    · simp [ih r _ hr]
    · rename_i hgt
      have h1 := safe_randint_fst_lb 1 (min 10 r) g
      have h2 := safe_randint_fst_le (by omega : (1 : Int) ≤ min 10 r) g
      simp only [List.sum_cons]
      rw [ih _ _ (by omega : (0:Int) ≤ r - (safe_randint 1 (min 10 r) g).1)]
      ring

theorem create_subtraction_pattern_eval (num oc : Int) (hoc : 2 ≤ oc)
    (g : RNG) : ((create_subtraction_pattern num oc g).1).eval = num := by
  unfold create_subtraction_pattern
  dsimp only
  split
  · simp [GenExpr.eval]
  · have hb := safe_randint_fst_lb (num + (oc - 1)) (num + (oc - 1) + 20) g
    rw [eval_joinSub, subTermsAux_sum _ _ _ (by omega)]
    ring

theorem mixedParts_sum (fuel : Nat) :
    ∀ (r : Int) (g : RNG), ((mixedParts fuel r g).1).sum = r := by
  induction fuel with
  | zero => intro r g; simp [mixedParts]
  | succ fuel ih =>
    intro r g
    simp only [mixedParts]
    split
    · simp [ih]
    · simp only [List.sum_cons, ih]
      ring

theorem fmul_fdiv_eq_self {p f : Int} (hf : 0 < f) (hrem : p - f * p.fdiv f ≤ 0) :
    f * p.fdiv f = p := by
  have h1 := Int.fmod_nonneg' p hf
  have h2 := Int.fmod_add_fdiv p f
  linarith

theorem eval_split_tdiv {num d a : Int} (hd : d ≠ 0) :
    (GenExpr.div (.add (.num a) (.num (num * d - a))) (.num d)).eval = num := by
  simp only [GenExpr.eval]
  have h : a + (num * d - a) = num * d := by ring
  rw [h]
  exact Int.mul_tdiv_cancel num hd

theorem eval_fq_rem_tdiv {num d f q : Int} (hd : d ≠ 0) :
    (GenExpr.div (.add (.mul (.num f) (.num q)) (.num (num * d - f * q)))
      (.num d)).eval = num := by
  simp only [GenExpr.eval]
  have h : f * q + (num * d - f * q) = num * d := by ring
  rw [h]
  exact Int.mul_tdiv_cancel num hd

theorem create_mixed_pattern_eval (num oc : Int) (g : RNG) :
    ((create_mixed_pattern num oc g).1).eval = num := by
  unfold create_mixed_pattern
  dsimp only
  split
  · rename_i h0
    simp [GenExpr.eval, h0.1]
  · split
    · split
      · exact create_addition_pattern_eval num 2 _
      · split
        · exact create_subtraction_pattern_eval num 2 (by omega) _
        · exact create_multiplicative_pattern_eval num 2 _
    · split
      · split
        · split
          · simp only [GenExpr.eval]
            ring
          · rename_i hnum hrem
            have hf := safe_randint_fst_lb 1 (max 1 (min num 10))
              (safe_randint 0 3 g).2
            simp only [GenExpr.eval]
            exact fmul_fdiv_eq_self (by omega) (not_lt.mp hrem)
        · exact create_addition_pattern_eval num oc _
      · split
        · split
          · exact create_addition_pattern_eval num oc _
          · rename_i hn0
            have hd := safe_randint_fst_lb 2 5 (safe_randint 0 3 g).2
            split
            · simp only [GenExpr.eval, eval_joinAdd, mixedParts_sum]
              exact Int.mul_tdiv_cancel num (by omega)
            · exact eval_split_tdiv (by omega)
        · split
          · split
            · simp only [GenExpr.eval]
              ring
            · exact create_addition_pattern_eval num oc _
          · split
            · rename_i h0
              simp [GenExpr.eval, h0]
            · rename_i hn0
              have hd := safe_randint_fst_lb 1 5 (safe_randint 0 3 g).2
              split
              · rename_i hprod
                have hf := safe_randint_fst_lb 2
                  (min (num * (safe_randint 1 5 (safe_randint 0 3 g).2).1 - 1) 5)
                  (safe_randint 1 5 (safe_randint 0 3 g).2).2
                split
                · exact eval_fq_rem_tdiv (by omega)
                · rename_i hrem
                  simp only [GenExpr.eval]
                  rw [fmul_fdiv_eq_self (by omega) (not_lt.mp hrem)]
                  exact Int.mul_tdiv_cancel num (by omega)
              · simp only [GenExpr.eval]
                exact Int.mul_tdiv_cancel num (by omega)

theorem dispatch_pattern_eval (num oc : Int) (hoc : 2 ≤ oc) (pt : Int)
    (g : RNG) :
    ((if pt = 0 then create_addition_pattern num oc g
      else if pt = 1 then create_multiplicative_pattern num oc g
      else if pt = 2 then create_subtraction_pattern num oc g
      else create_mixed_pattern num oc g).1).eval = num := by
  split
  · exact create_addition_pattern_eval num oc g
  · split
    · exact create_multiplicative_pattern_eval num oc g
    · split
      · exact create_subtraction_pattern_eval num oc hoc g
      · exact create_mixed_pattern_eval num oc g

theorem transform_number_eval (num : Int) (c? : Option Int) (g : RNG) :
    ((transform_number num c? g).1).eval = num := by
  unfold transform_number
  dsimp only
  exact dispatch_pattern_eval num _ (safe_randint_fst_lb 2 _ _) _ _

/-- C4: for every integer literal written in decimal (with optional leading
minus sign) and for every sequence of random draws, the expression produced
by the generator evaluates, by exact integer arithmetic with truncating
division, to exactly the literal's value, a negative sign being re-applied
as a leading unary minus outside the generated expression. -/
theorem C4_generator_value_exact (s : Str) (n : Nat) (g : RNG)
    (hparse : pyInt? (if s.head? == some '-' then s.drop 1 else s) = some n) :
    ∃ e, (generate_equivalent_expr s g).1 = some e ∧
      e.eval = (if s.head? == some '-' then -(n : Int) else (n : Int)) := by
  unfold generate_equivalent_expr
  dsimp only
  rw [hparse]
  dsimp only
  refine ⟨_, rfl, ?_⟩
  by_cases hneg : (s.head? == some '-') = true
  · simp only [hneg, if_true, GenExpr.eval, transform_number_eval]
  · rw [Bool.not_eq_true] at hneg
    simp only [hneg, Bool.false_eq_true, if_false, transform_number_eval]

theorem C4_generator_value_exact_witness :
    (∃ e, (generate_equivalent_expr ("-100".toList) []).1 = some e ∧
      e.eval = -100) ∧
    (∃ e, (generate_equivalent_expr ("-1".toList) []).1 = some e ∧
      e.eval = -1) ∧
    (∃ e, (generate_equivalent_expr ("0".toList) []).1 = some e ∧
      e.eval = 0) ∧
    (∃ e, (generate_equivalent_expr ("1".toList) []).1 = some e ∧
      e.eval = 1) ∧
    (∃ e, (generate_equivalent_expr ("42".toList) []).1 = some e ∧
      e.eval = 42) ∧
    (∃ e, (generate_equivalent_expr ("4096".toList) []).1 = some e ∧
      e.eval = 4096) := by
  refine ⟨?_, ?_, ?_, ?_, ?_, ?_⟩
  · obtain ⟨e, he, hv⟩ := C4_generator_value_exact ("-100".toList) 100 []
      (by decide)
    exact ⟨e, he, by rw [hv]; decide⟩
  · obtain ⟨e, he, hv⟩ := C4_generator_value_exact ("-1".toList) 1 []
      (by decide)
    exact ⟨e, he, by rw [hv]; decide⟩
  · obtain ⟨e, he, hv⟩ := C4_generator_value_exact ("0".toList) 0 []
      (by decide)
    exact ⟨e, he, by rw [hv]; decide⟩
  · obtain ⟨e, he, hv⟩ := C4_generator_value_exact ("1".toList) 1 []
      (by decide)
    exact ⟨e, he, by rw [hv]; decide⟩
  · obtain ⟨e, he, hv⟩ := C4_generator_value_exact ("42".toList) 42 []
      (by decide)
    exact ⟨e, he, by rw [hv]; decide⟩
  · obtain ⟨e, he, hv⟩ := C4_generator_value_exact ("4096".toList) 4096 []
      (by decide)
    exact ⟨e, he, by rw [hv]; decide⟩

/-! Embedding of transformations/clonegen/ch_constant.py. -/

/-- The bitmask_patterns list of is_safe_to_transform. -/
def BITMASK_PATTERNS : List Str :=
  ["1", "2", "4", "8", "16", "32", "64", "128", "256", "512", "1024",
   "2048", "4096", "8192"].map String.toList

/-- Bitwise operator token types looked for by could_be_bitmask_context. -/
def BITOPS : List String := ["&", "|", "^", "<<", ">>"]

mutual
/-- The recursive preprocessor scan of is_in_preprocessor_directive: true
when any node of the tree has a type starting with preproc_.  (The other
branch of the source compares start_line keys, which the serialized nodes
do not carry, so it never fires.) -/
def checkPreproc : Node → Bool
  | .mk ty _ _ _ cs =>
    if ty.startsWith "preproc_" then true else checkPreprocList cs

/-- The children loop of checkPreproc. -/
def checkPreprocList : List Node → Bool
  | [] => false
  | c :: cs => if checkPreproc c then true else checkPreprocList cs
end

/-- ch_constant.is_in_preprocessor_directive (the node argument only feeds
the dead start_line branch). -/
def is_in_preprocessor_directive (_n root : Node) : Bool :=
  checkPreproc root

mutual
/-- The recursive template scan of is_in_template_parameters: true when
some template argument or parameter list node's span contains the target
span. -/
def checkTemplate (ts te : Nat) : Node → Bool
  | .mk ty s e _ cs =>
    if (ty == "template_argument_list" || ty == "template_parameter_list") &&
        (s ≤ ts && te ≤ e) then true
    else checkTemplateList ts te cs

/-- The children loop of checkTemplate. -/
def checkTemplateList (ts te : Nat) : List Node → Bool
  | [] => false
  | c :: cs => if checkTemplate ts te c then true else checkTemplateList ts te cs
end

/-- ch_constant.is_in_template_parameters. -/
def is_in_template_parameters (n root : Node) : Bool :=
  checkTemplate n.start_byte n.end_byte root

/-- The parent-climbing scan of could_be_bitmask_context; the fuel is the
remaining search depth (the source stops once depth exceeds 3). -/
def checkParentBitwise (root : Node) (ts te : Nat) : Nat → Node → Bool
  | 0, _ => false
  | fuel+1, cur =>
    if cur.type == "binary_expression" &&
        cur.children.any (fun c => BITOPS.contains c.type) &&
        (cur.start_byte ≤ ts && te ≤ cur.end_byte) then true
    else
      match root.children.find? (fun c => !(Node.beq c cur) &&
          (c.start_byte ≤ cur.start_byte && cur.end_byte ≤ c.end_byte)) with
      | some c => checkParentBitwise root ts te fuel c
      | none => false

/-- ch_constant.could_be_bitmask_context. -/
def could_be_bitmask_context (n root : Node) : Bool :=
  checkParentBitwise root n.start_byte n.end_byte 4 n

/-- ch_constant.is_safe_to_transform. -/
def is_safe_to_transform (n root : Node) : Bool :=
  let value := n.text
  if value.contains '.' || value.contains 'e' || value.contains 'E' then false
  else if "0x".toList.isPrefixOf value || "0X".toList.isPrefixOf value ||
      "0b".toList.isPrefixOf value || "0B".toList.isPrefixOf value ||
      (1 < value.length && "0".toList.isPrefixOf value) then false
  else if is_in_preprocessor_directive n root then false
  else if is_in_template_parameters n root then false
  else if BITMASK_PATTERNS.contains value && could_be_bitmask_context n root then
    false
  else true

mutual
/-- ch_constant.find_number_literals. -/
def find_number_literals : Node → List Node
  | n@(.mk _ _ _ _ cs) =>
    (if n.type == "number_literal" then [n] else []) ++ findNumLitList cs

/-- The children loop of find_number_literals. -/
def findNumLitList : List Node → List Node
  | [] => []
  | c :: cs => find_number_literals c ++ findNumLitList cs
end

/-- The splice loop of reconstruct_text: replace every number literal's
span (relative to the root's start offset) by its current text, in
descending start order. -/
def reconstructSplice (rootStart : Nat) (t : Str) (nodes : List Node) : Str :=
  (sortByStartDesc nodes).foldl
    (fun acc nn => spliceAt acc (nn.start_byte - rootStart)
      (nn.end_byte - rootStart) nn.text) t

mutual
/-- ch_constant.reconstruct_text: rebuild children first, then, on a
translation_unit node, splice the (possibly rewritten) number literal texts
back into the node's own text. -/
def reconstruct_text : Node → Node
  | .mk ty s e tx cs =>
    match cs with
    | [] => .mk ty s e tx []
    | c :: cs' =>
      let m := Node.mk ty s e tx (reconstructList (c :: cs'))
      if ty == "translation_unit" then
        m.withText (reconstructSplice s tx (find_number_literals m))
      else m

/-- The children loop of reconstruct_text. -/
def reconstructList : List Node → List Node
  | [] => []
  | c :: cs => reconstruct_text c :: reconstructList cs
end

mutual
/-- ch_constant.transform_number_literals with the random oracle threaded
through; a number literal that passes is_safe_to_transform gets its text
replaced by the generated equivalent expression (which, on an unparseable
literal, is the unchanged input text; the try/except of the source guards a
branch that cannot raise in this model). -/
def transform_number_literals : Node → RNG → Node × RNG
  | .mk ty s e tx cs, g =>
    if ty == "number_literal" then
      if is_safe_to_transform (.mk ty s e tx cs) (.mk ty s e tx cs) then
        ((Node.mk ty s e (generate_equivalent_expression tx g).1 cs),
          (generate_equivalent_expression tx g).2)
      else (.mk ty s e tx cs, g)
    else
      let p := tnlList cs g
      let m := Node.mk ty s e tx p.1
      if ty == "translation_unit" then (reconstruct_text m, p.2) else (m, p.2)

/-- The children loop of transform_number_literals, threading the oracle
left to right. -/
def tnlList : List Node → RNG → List Node × RNG
  | [], g => ([], g)
  | c :: cs, g =>
    let p := transform_number_literals c g
    let q := tnlList cs p.2
    (p.1 :: q.1, q.2)
end

/-- Path-indexed access into a tree: follow child indices. -/
def Node.getPath : Node → List Nat → Option Node
  | n, [] => some n
  | n, i :: p =>
    match n.children[i]? with
    | some c => c.getPath p
    | none => none

theorem generate_unparseable (s : Str) (g : RNG)
    (h : pyInt? (if s.head? == some '-' then s.drop 1 else s) = none) :
    generate_equivalent_expression s g = (s, g) := by
  unfold generate_equivalent_expression generate_equivalent_expr
  dsimp only
  rw [h]

theorem reconstruct_children (t : Node) :
    (reconstruct_text t).children = reconstructList t.children := by
  cases t with
  | mk ty s e tx cs =>
    cases cs with
    | nil => rfl
    | cons c cs' =>
      simp only [reconstruct_text]
      split <;> rfl

theorem reconstruct_type (t : Node) : (reconstruct_text t).type = t.type := by
  cases t with
  | mk ty s e tx cs =>
    cases cs with
    | nil => rfl
    | cons c cs' =>
      simp only [reconstruct_text]
      split <;> rfl

theorem reconstruct_text_of_ne (t : Node) (h : t.type ≠ "translation_unit") :
    (reconstruct_text t).text = t.text := by
  cases t with
  | mk ty s e tx cs =>
    cases cs with
    | nil => rfl
    | cons c cs' =>
      simp only [reconstruct_text]
      split
      · rename_i hty
        exact absurd (by simpa [Node.type] using hty) h
      · rfl

theorem reconstructList_getElem (cs : List Node) (i : Nat) :
    (reconstructList cs)[i]? = (cs[i]?).map reconstruct_text := by
  induction cs generalizing i with
  | nil => simp [reconstructList]
  | cons c cs' ih =>
    cases i with
    | zero => simp [reconstructList]
    | succ i => simpa [reconstructList] using ih i

theorem reconstruct_getPath (p : List Nat) (t : Node) :
    (reconstruct_text t).getPath p = (t.getPath p).map reconstruct_text := by
  induction p generalizing t with
  | nil => simp [Node.getPath]
  | cons i rest ih =>
    simp only [Node.getPath, reconstruct_children, reconstructList_getElem]
    cases h : t.children[i]? with
    | none => simp
    | some c => simp [ih]

theorem tnlList_getElem (cs : List Node) :
    ∀ (g : RNG) (i : Nat) (c : Node), cs[i]? = some c →
      ∃ g', (tnlList cs g).1[i]? = some (transform_number_literals c g').1 := by
  induction cs with
  | nil => intro g i c h; simp at h
  | cons d ds ih =>
    intro g i c h
    cases i with
    | zero =>
      simp only [List.getElem?_cons_zero, Option.some.injEq] at h
      subst h
      exact ⟨g, by simp [tnlList]⟩
    | succ i =>
      simp only [List.getElem?_cons_succ] at h
      obtain ⟨g', hg⟩ := ih (transform_number_literals d g).2 i c h
      exact ⟨g', by simpa [tnlList] using hg⟩

theorem tnl_preserves_unparseable_literal (p : List Nat) :
    ∀ (t : Node) (g : RNG) (n : Node),
      t.getPath p = some n → n.type = "number_literal" →
      pyInt? (if n.text.head? == some '-' then n.text.drop 1 else n.text) =
        none →
      ∃ n2, ((transform_number_literals t g).1).getPath p = some n2 ∧
        n2.text = n.text ∧ n2.type = n.type := by
  induction p with
  | nil =>
    intro t g n hp hty hparse
    simp only [Node.getPath, Option.some.injEq] at hp
    subst hp
    cases t with
    | mk ty s e tx cs =>
      simp only [Node.type] at hty
      subst hty
      simp only [transform_number_literals, beq_self_eq_true, if_true]
      simp only [Node.text] at hparse
      split
      · refine ⟨Node.mk "number_literal" s e
          (generate_equivalent_expression tx g).1 cs, rfl, ?_, rfl⟩
        simp only [Node.text]
        rw [generate_unparseable tx g hparse]
      · exact ⟨Node.mk "number_literal" s e tx cs, rfl, rfl, rfl⟩
  | cons i rest ih =>
    intro t g n hp hty hparse
    cases t with
    | mk ty s e tx cs =>
      simp only [Node.getPath, Node.children] at hp
      cases hc : cs[i]? with
      | none => rw [hc] at hp; simp at hp
      | some c =>
        rw [hc] at hp
        simp only at hp
        by_cases hnl : (ty == "number_literal") = true
        · -- a number_literal node keeps its children untouched
          simp only [transform_number_literals, hnl, if_true]
          split
          · exact ⟨n, by simp [Node.getPath, Node.children, hc, hp], rfl, rfl⟩
          · exact ⟨n, by simp [Node.getPath, Node.children, hc, hp], rfl, rfl⟩
        · obtain ⟨g', hg⟩ := tnlList_getElem cs g i c hc
          obtain ⟨n2, hp2, htext2, htype2⟩ := ih c g' n hp hty hparse
          simp only [transform_number_literals]
          rw [if_neg hnl]
          split
          · rw [reconstruct_getPath]
            have hm : (Node.mk ty s e tx (tnlList cs g).1).getPath (i :: rest) =
                some n2 := by
              simp [Node.getPath, Node.children, hg, hp2]
            rw [hm]
            refine ⟨reconstruct_text n2, rfl, ?_, ?_⟩
            · rw [reconstruct_text_of_ne n2 (by rw [htype2, hty]; decide), htext2]
            · rw [reconstruct_type, htype2]
          · refine ⟨n2, ?_, htext2, htype2⟩
            simp [Node.getPath, Node.children, hg, hp2]

/-- C7: a number literal whose text does not parse as an integer is left
unmodified: the expression generator returns the literal text unchanged
(consuming no randomness), and the literal-rewriting pass returns a tree in
which that literal's node still carries exactly its original text, the pass
running to completion over the rest of the tree (all functions involved are
total; no error escapes). -/
theorem C7_malformed_literal_left_unmodified (s : Str) (g : RNG) (t : Node)
    (p : List Nat) (n : Node)
    (hs : pyInt? (if s.head? == some '-' then s.drop 1 else s) = none) :
    generate_equivalent_expression s g = (s, g) ∧
    (t.getPath p = some n → n.type = "number_literal" →
      pyInt? (if n.text.head? == some '-' then n.text.drop 1 else n.text) =
        none →
      ∃ n2, ((transform_number_literals t g).1).getPath p = some n2 ∧
        n2.text = n.text) := by
  refine ⟨generate_unparseable s g hs, fun hp hty hparse => ?_⟩
  obtain ⟨n2, h1, h2, -⟩ :=
    tnl_preserves_unparseable_literal p t g n hp hty hparse
  exact ⟨n2, h1, h2⟩

/-- A malformed number literal (its text is not an integer literal). -/
def c7lit : Node := .mk "number_literal" 0 5 "12abc".toList []

/-- A small translation unit containing the malformed literal. -/
def c7tree : Node :=
  .mk "translation_unit" 0 6 "12abc;".toList [c7lit, .mk ";" 5 6 ";".toList []]

theorem C7_malformed_literal_left_unmodified_witness :
    generate_equivalent_expression ("12abc".toList) [] = ("12abc".toList, []) ∧
    (∃ n2, ((transform_number_literals c7tree []).1).getPath [0] = some n2 ∧
      n2.text = c7lit.text) :=
  ⟨(C7_malformed_literal_left_unmodified ("12abc".toList) [] c7tree [0] c7lit
      (by decide)).1,
   (C7_malformed_literal_left_unmodified ("12abc".toList) [] c7tree [0] c7lit
      (by decide)).2 (by decide) (by decide) (by decide)⟩

/-! Embedding of transformations/loop/while_to_for.py.  The function works
on the root text only.  Unlike every other rule it does NOT deep-copy: the
source executes ast_json["text"] = result_text and returns ast_json, so the
returned node is the caller's own tree, mutated in place; the Lean value
returned below is therefore both the return value and the value of the
caller's tree after the call. -/

/-- Python regex word characters (for the word boundaries of the keyword
patterns). -/
def isWordChar (c : Char) : Bool := c.isAlphanum || c == '_'

/-- Word-boundary test around position p for a keyword of length k. -/
def boundaryOk (t : Str) (p k : Nat) : Bool :=
  (decide (p = 0) || !(isWordChar (t.getD (p-1) ' '))) &&
  (decide (t.length ≤ p + k) || !(isWordChar (t.getD (p + k) ' ')))

/-- All match positions of the regex boundary-kw-boundary (the finditer
for the do and while keywords; keyword matches cannot overlap). -/
def findKeyword (kw : Str) (t : Str) : List Nat :=
  (List.range t.length).filter
    (fun p => kw.isPrefixOf (t.drop p) && boundaryOk t p kw.length)

/-- The brace counting loop of while_to_for: scan from the absolute index
i, raise the counter on each opening brace, lower it on each closing brace
and return the index where it reaches zero. -/
def fcbAux : List Char → Nat → Int → Option Nat
  | [], _, _ => none
  | c :: rest, i, cnt =>
    if c = '\x7b' then fcbAux rest (i+1) (cnt+1)
    else if c = '\x7d' then
      (if cnt - 1 = 0 then some i else fcbAux rest (i+1) (cnt - 1))
    else fcbAux rest (i+1) cnt

/-- Find the closing brace matching the first opening brace at or after
position start (none when the scan runs off the end). -/
def findCloseBrace (t : Str) (start : Nat) : Option Nat :=
  fcbAux (t.drop start) start 0

/-- The do-while detection of while_to_for: for each do keyword, find its
matching closing brace, then the first while keyword after it separated
only by text that strips to the empty string.  (The slice starts at the
closing brace itself, so the stripped text always retains that brace — see
the theorems below.) -/
def do_while_positions (t : Str) : List Nat :=
  (findKeyword ("do".toList) t).filterMap (fun dp =>
    match findCloseBrace t dp with
    | none => none
    | some cb =>
      (findKeyword ("while".toList) t).find? (fun wp =>
        decide (cb < wp) && decide (wp < t.length) &&
          decide (pyStrip ((t.drop cb).take (wp - cb)) = [])))

/-- Index of the last occurrence of a character in a list. -/
def lastIdxOf (c : Char) (l : Str) : Option Nat :=
  match l.reverse.findIdx? (fun x => x == c) with
  | some r => some (l.length - 1 - r)
  | none => none

/-- Try to match the regex for a while header at position i: the literal
keyword, optional whitespace, an opening parenthesis, then a greedy run of
characters other than an opening brace or semicolon ending at a closing
parenthesis (regex backtracking makes that the last closing parenthesis of
the run).  Returns the end position (exclusive) and the text between the
outer parentheses. -/
def matchWhileHeaderAt (t : Str) (i : Nat) : Option (Nat × Str) :=
  if ("while".toList).isPrefixOf (t.drop i) then
    let ws := (t.drop (i + 5)).takeWhile (fun c => c.isWhitespace)
    let j := i + 5 + ws.length
    match t.drop j with
    | '(' :: after =>
      let run := after.takeWhile (fun c => c != '\x7b' && c != ';')
      match lastIdxOf ')' run with
      | some k => if 1 ≤ k then some (j + 1 + k + 1, run.take k) else none
      | none => none
    | _ => none
  else none

/-- Candidate header matches at every position, in ascending order. -/
def whileHeaderCandidates (t : Str) : List (Nat × Nat × Str) :=
  (List.range t.length).filterMap
    (fun i => (matchWhileHeaderAt t i).map (fun m => (i, m.1, m.2)))

/-- Left-to-right non-overlapping selection, as finditer resumes scanning
at the end of each match. -/
def selectNonOverlapping : List (Nat × Nat × Str) → Nat → List (Nat × Nat × Str)
  | [], _ => []
  | m :: rest, lo =>
    if lo ≤ m.1 then m :: selectNonOverlapping rest m.2.1
    else selectNonOverlapping rest lo

/-- re.finditer of the while header pattern over the whole text. -/
def whileHeaderMatches (t : Str) : List (Nat × Nat × Str) :=
  selectNonOverlapping (whileHeaderCandidates t) 0

/-- while_to_for.transform_while_to_for: replace every matched while header
whose position is not an excluded do-while position by
for ( ; condition ; ), processing matches in reverse order on the original
offsets.  The source mutates its argument in place and returns it, so this
value is also the caller's tree after the call. -/
def transform_while_to_for (ast : Node) : Node :=
  let full_text := ast.text
  let dwp := do_while_positions full_text
  let ms := whileHeaderMatches full_text
  ast.withText ((ms.reverse).foldl
    (fun acc m =>
      if dwp.contains m.1 then acc
      else spliceAt acc m.1 m.2.1
        ("for ( ; ".toList ++ pyStrip m.2.2 ++ " ; )".toList))
    full_text)

theorem fcbAux_spec : ∀ (l : List Char) (i : Nat) (cnt : Int) (j : Nat),
    fcbAux l i cnt = some j → i ≤ j ∧ l[j - i]? = some '\x7d' := by
  intro l
  induction l with
  | nil => intro i cnt j h; simp [fcbAux] at h
  | cons c rest ih =>
    intro i cnt j h
    simp only [fcbAux] at h
    split at h
    · obtain ⟨hle, hget⟩ := ih (i+1) _ j h
      refine ⟨by omega, ?_⟩
      have hji : j - i = (j - (i+1)) + 1 := by omega
      rw [hji]
      simpa using hget
    · split at h
      · split at h
        · rename_i hnb hc hcnt
          simp only [Option.some.injEq] at h
          subst h
          refine ⟨le_refl _, ?_⟩
          simp [Nat.sub_self, hc]
        · obtain ⟨hle, hget⟩ := ih (i+1) _ j h
          refine ⟨by omega, ?_⟩
          have hji : j - i = (j - (i+1)) + 1 := by omega
          rw [hji]
          simpa using hget
      · obtain ⟨hle, hget⟩ := ih (i+1) _ j h
        refine ⟨by omega, ?_⟩
        have hji : j - i = (j - (i+1)) + 1 := by omega
        rw [hji]
        simpa using hget

theorem findCloseBrace_char (t : Str) (dp cb : Nat)
    (h : findCloseBrace t dp = some cb) : dp ≤ cb ∧ t[cb]? = some '\x7d' := by
  obtain ⟨hle, hget⟩ := fcbAux_spec (t.drop dp) dp 0 cb h
  refine ⟨hle, ?_⟩
  rw [List.getElem?_drop] at hget
  rwa [Nat.add_sub_cancel' hle] at hget

theorem pyStrip_ne_nil_head {l : Str} {c : Char} (h : l.head? = some c)
    (hc : c.isWhitespace = false) : pyStrip l ≠ [] := by
  cases l with
  | nil => simp at h
  | cons d rest =>
    simp only [List.head?_cons, Option.some.injEq] at h
    subst h
    intro hcon
    unfold pyStrip at hcon
    rw [List.dropWhile_cons_of_neg (by simp [hc])] at hcon
    rw [List.reverse_eq_nil_iff, List.dropWhile_eq_nil_iff] at hcon
    have hcw := hcon d (by simp)
    simp [hc] at hcw

/-- The do-while exclusion of while_to_for is dead code: the between text
it strips starts at the matching closing brace itself, so it always keeps
that brace and never equals the empty string; no while position is ever
excluded, whatever the input buffer. -/
theorem do_while_positions_eq_nil (t : Str) : do_while_positions t = [] := by
  unfold do_while_positions
  rw [List.filterMap_eq_nil_iff]
  intro dp _
  cases hcb : findCloseBrace t dp with
  | none => simp
  | some cb =>
    simp only
    rw [List.find?_eq_none]
    intro wp _
    simp only [Bool.and_eq_true, decide_eq_true_eq, not_and]
    intro hlt hstrip
    obtain ⟨hcb2, hch⟩ := findCloseBrace_char t dp cb hcb
    have h1 : (t.drop cb).head? = some '\x7d' := by
      rw [List.head?_eq_getElem?, List.getElem?_drop, Nat.add_zero]
      exact hch
    cases hdc : t.drop cb with
    | nil => rw [hdc] at h1; simp at h1
    | cons a as =>
      rw [hdc] at h1
      simp only [List.head?_cons, Option.some.injEq] at h1
      subst h1
      have hk : wp - cb = (wp - cb - 1) + 1 := by omega
      rw [hdc, hk] at hstrip
      have hsh : (('\x7d' :: as).take ((wp - cb - 1) + 1)).head? =
          some '\x7d' := by simp
      exact absurd hstrip (pyStrip_ne_nil_head hsh (by decide))

/-- A braced do-while loop, the form the spec says is excluded. -/
def c8tree : Node :=
  .mk "translation_unit" 0 26 "do \x7b x++; \x7d while (i < 3);".toList []

/-- C8 evidence: the do-while exclusion never fires — do_while_positions is
empty for every input buffer, since the in-between text the scan strips
always begins with the matching closing brace itself — so the trailing
while of the braced do-while below is rewritten like a plain while header,
against the stated (and documented) exclusion. -/
theorem C8_do_while_exclusion_never_fires (t : Str) :
    do_while_positions t = [] ∧
    (transform_while_to_for c8tree).text =
      "do \x7b x++; \x7d for ( ; i < 3 ; );".toList :=
  ⟨do_while_positions_eq_nil t, by decide⟩

/-- A tree whose root text is a plain while loop. -/
def c6tree : Node := .mk "translation_unit" 0 12 "while (x) y;".toList []

/-- C6 counterexample: while_to_for executes ast_json["text"] = result_text
on its argument and returns that same object, so the value of the caller's
tree after the call — the value below — differs from the original input
tree: the input is mutated in place, against the claim. -/
theorem C6_counterexample_while_to_for_mutates :
    transform_while_to_for c6tree ≠ c6tree ∧
    (transform_while_to_for c6tree).text = "for ( ; x ; ) y;".toList :=
  ⟨by decide, by decide⟩

/-- C6 amended: the splice-based passes (the generic compound-assignment
driver and the relational pass) deep-copy and return a tree differing from
the input at most in the root text — type, span and children (hence every
descendant) are exactly the input's, and the input value itself is
untouched; the while-to-for pass instead rewrites the root text in place on
its argument (its result is the caller's tree after the call), likewise
changing nothing but the root text. -/
theorem C6_amended_only_root_text_changes (t : Node)
    (pf : Node → String → Bool) (op : String) (rf : Node → String → Str) :
    ((transform_ast t pf op rf).type = t.type ∧
     (transform_ast t pf op rf).start_byte = t.start_byte ∧
     (transform_ast t pf op rf).end_byte = t.end_byte ∧
     (transform_ast t pf op rf).children = t.children) ∧
    ((transform_relational_expressions t).type = t.type ∧
     (transform_relational_expressions t).start_byte = t.start_byte ∧
     (transform_relational_expressions t).end_byte = t.end_byte ∧
     (transform_relational_expressions t).children = t.children) ∧
    ((transform_while_to_for t).type = t.type ∧
     (transform_while_to_for t).start_byte = t.start_byte ∧
     (transform_while_to_for t).end_byte = t.end_byte ∧
     (transform_while_to_for t).children = t.children) := by
  refine ⟨?_, ?_, ?_⟩
  · cases t with
    | mk ty s e tx cs =>
      unfold transform_ast
      dsimp only
      split <;> simp [Node.withText, Node.type, Node.start_byte,
        Node.end_byte, Node.children]
  · cases t with
    | mk ty s e tx cs =>
      unfold transform_relational_expressions
      dsimp only
      split <;> simp [Node.withText, Node.type, Node.start_byte,
        Node.end_byte, Node.children]
  · cases t with
    | mk ty s e tx cs =>
      unfold transform_while_to_for
      simp [Node.withText, Node.type, Node.start_byte, Node.end_byte,
        Node.children]

/-! Embedding of transformations/clonegen/ch_rename.py. -/

/-- The fixed exclusion list of transform_names: C and C++ keywords, the
entry point main, and standard library names, transcribed verbatim from the
source (duplicates included). -/
def RENAME_EXCLUSIONS : List String :=
  ["alignas", "alignof", "and", "and_eq", "asm",
   "auto", "bitand", "bitor", "bool", "break",
   "case", "catch", "char", "char8_t", "char16_t",
   "char32_t", "class", "compl", "concept", "const",
   "consteval", "constexpr", "constinit", "const_cast", "continue",
   "co_await", "co_return", "co_yield", "decltype", "default",
   "delete", "do", "double", "dynamic_cast", "else",
   "enum", "explicit", "export", "extern", "false",
   "float", "for", "friend", "goto", "if",
   "inline", "int", "long", "mutable", "namespace",
   "new", "noexcept", "not", "not_eq", "nullptr",
   "operator", "or", "or_eq", "private", "protected",
   "public", "register", "reinterpret_cast", "requires", "restrict",
   "return", "short", "signed", "sizeof", "static",
   "static_assert", "static_cast", "struct", "switch", "template",
   "this", "thread_local", "throw", "true", "try",
   "typedef", "typeid", "typename", "union", "unsigned",
   "using", "virtual", "void", "volatile", "wchar_t",
   "while", "xor", "xor_eq", "_Alignas", "_Alignof",
   "_Atomic", "_Bool", "_Complex", "_Generic", "_Imaginary",
   "_Noreturn", "_Static_assert", "_Thread_local", "main", "printf",
   "fprintf", "sprintf", "snprintf", "vprintf", "vfprintf",
   "vsprintf", "vsnprintf", "scanf", "fscanf", "sscanf",
   "vscanf", "vfscanf", "vsscanf", "fgetc", "fgets",
   "fputc", "fputs", "getc", "getchar", "gets",
   "putc", "putchar", "puts", "ungetc", "fread",
   "fwrite", "fopen", "fclose", "fflush", "freopen",
   "setbuf", "setvbuf", "fseek", "ftell", "rewind",
   "fgetpos", "fsetpos", "clearerr", "feof", "ferror",
   "perror", "remove", "rename", "tmpfile", "tmpnam",
   "atof", "atoi", "atol", "atoll", "strtod",
   "strtof", "strtol", "strtold", "strtoll", "strtoul",
   "strtoull", "rand", "srand", "calloc", "free",
   "malloc", "realloc", "abort", "atexit", "exit",
   "_Exit", "getenv", "system", "bsearch", "qsort",
   "abs", "div", "labs", "ldiv", "llabs",
   "lldiv", "mblen", "mbtowc", "wctomb", "mbstowcs",
   "wcstombs", "memcpy", "memmove", "memchr", "memcmp",
   "memset", "strcat", "strncat", "strchr", "strcmp",
   "strncmp", "strcoll", "strcpy", "strncpy", "strspn",
   "strcspn", "strerror", "strlen", "strpbrk", "strrchr",
   "strstr", "strtok", "strxfrm", "cos", "sin",
   "tan", "acos", "asin", "atan", "atan2",
   "cosh", "sinh", "tanh", "acosh", "asinh",
   "atanh", "exp", "frexp", "ldexp", "log",
   "log10", "modf", "exp2", "expm1", "log1p",
   "log2", "logb", "pow", "sqrt", "cbrt",
   "hypot", "erf", "erfc", "lgamma", "tgamma",
   "ceil", "floor", "fmod", "trunc", "round",
   "lround", "llround", "rint", "lrint", "llrint",
   "nearbyint", "remainder", "remquo", "copysign", "nan",
   "nextafter", "nexttoward", "fdim", "fmax", "fmin",
   "fabs", "fma", "clock", "difftime", "mktime",
   "time", "asctime", "ctime", "gmtime", "localtime",
   "strftime", "isalnum", "isalpha", "isblank", "iscntrl",
   "isdigit", "isgraph", "islower", "isprint", "ispunct",
   "isspace", "isupper", "isxdigit", "tolower", "toupper",
   "signal", "raise", "longjmp", "setjmp", "assert",
   "errno", "cin", "cout", "cerr", "clog",
   "endl", "ends", "flush", "ws", "dec",
   "hex", "oct", "fixed", "scientific", "boolalpha",
   "noboolalpha", "showbase", "noshowbase", "showpoint", "noshowpoint",
   "showpos", "noshowpos", "skipws", "noskipws", "uppercase",
   "nouppercase", "unitbuf", "nounitbuf", "internal", "left",
   "right", "setw", "setfill", "setprecision", "setiosflags",
   "resetiosflags", "setbase", "get", "getline", "ignore",
   "peek", "read", "gcount", "seekg", "seekp",
   "tellg", "tellp", "write", "put", "width",
   "fill", "precision", "flags", "setf", "unsetf",
   "good", "eof", "fail", "bad", "clear",
   "sync", "open", "close", "append", "assign",
   "at", "back", "begin", "capacity", "cbegin",
   "cend", "clear", "compare", "copy", "crbegin",
   "crend", "c_str", "data", "empty", "end",
   "erase", "find", "find_first_not_of", "find_first_of", "find_last_not_of",
   "find_last_of", "front", "insert", "length", "max_size",
   "pop_back", "push_back", "rbegin", "rend", "replace",
   "reserve", "resize", "shrink_to_fit", "size", "substr",
   "swap", "accumulate", "adjacent_difference", "adjacent_find", "all_of",
   "any_of", "back_inserter", "binary_search", "copy_if", "copy_n",
   "count", "count_if", "equal", "equal_range", "fill",
   "fill_n", "find_if", "find_if_not", "for_each", "front_inserter",
   "generate", "generate_n", "includes", "inplace_merge", "inserter",
   "is_heap", "is_sorted", "iter_swap", "lexicographical_compare", "lower_bound",
   "make_heap", "max", "max_element", "merge", "min",
   "min_element", "minmax", "minmax_element", "mismatch", "move",
   "next_permutation", "none_of", "nth_element", "partial_sort", "partial_sort_copy",
   "partition", "pop_heap", "prev_permutation", "push_heap", "random_shuffle",
   "remove", "remove_copy", "remove_copy_if", "remove_if", "replace",
   "replace_copy", "replace_copy_if", "replace_if", "reverse", "reverse_copy",
   "rotate", "rotate_copy", "search", "search_n", "set_difference",
   "set_intersection", "set_symmetric_difference", "set_union", "shuffle", "sort",
   "sort_heap", "stable_partition", "stable_sort", "swap_ranges", "transform",
   "unique", "unique_copy", "upper_bound", "allocate", "allocate_shared",
   "allocator", "construct", "deallocate", "default_delete", "destroy",
   "get_deleter", "get_temporary_buffer", "make_shared", "make_unique", "owner_less",
   "raw_storage_iterator", "return_temporary_buffer", "shared_ptr", "unique_ptr", "weak_ptr",
   "bind", "function", "hash", "invoke", "is_bind_expression",
   "is_placeholder", "mem_fn", "not1", "not2", "plus",
   "minus", "multiplies", "divides", "modulus", "negate",
   "equal_to", "not_equal_to", "greater", "less", "greater_equal",
   "less_equal", "logical_and", "logical_or", "logical_not", "bit_and",
   "bit_or", "bit_xor", "bit_not", "thread", "mutex",
   "timed_mutex", "recursive_mutex", "recursive_timed_mutex", "lock_guard", "unique_lock",
   "shared_lock", "condition_variable", "condition_variable_any", "notify_all_at_thread_exit", "cv_status",
   "promise", "packaged_task", "future", "shared_future", "async",
   "launch", "future_status", "future_error", "future_category"]

/-- The membership test original_name in [...] of transform_names. -/
def isExcludedName (t : Str) : Bool :=
  RENAME_EXCLUSIONS.any (fun s => s.toList == t)

/-- The renaming rule of transform_names: new_name = original_name + _new. -/
def rename_replacement (name : Str) : Str := name ++ "_new".toList

/-- One iteration of the renaming loop: skip excluded names, otherwise
splice the new name over the identifier's span. -/
def rename_step (acc : Str) (idn : Node) : Str :=
  if isExcludedName idn.text then acc
  else spliceAt acc idn.start_byte idn.end_byte (rename_replacement idn.text)

mutual
/-- ch_rename.find_identifiers: all identifier nodes, in document order. -/
def find_identifiers : Node → List Node
  | n@(.mk ty _ _ _ cs) =>
    (if ty == "identifier" then [n] else []) ++ findIdentList cs

/-- The children loop of find_identifiers. -/
def findIdentList : List Node → List Node
  | [] => []
  | c :: cs => find_identifiers c ++ findIdentList cs
end

/-- ch_rename.transform_names: deep-copy (identity on values), then splice
the renamed identifiers into the root text in descending start order,
skipping the names of the exclusion list. -/
def transform_names (n : Node) : Node :=
  let identifiers := find_identifiers n
  if identifiers = [] then n
  else n.withText ((sortByStartDesc identifiers).foldl rename_step n.text)

/-- Canonical segment semantics of the renaming pass: emit the buffer
between successive identifiers untouched, each excluded identifier's
original bytes untouched, and each other identifier's text suffixed with
_new. -/
def renderPieces (t : Str) : Nat → List Node → Str
  | pos, [] => t.drop pos
  | pos, n :: rest =>
    (t.drop pos).take (n.start_byte - pos) ++
      (if isExcludedName n.text then
        (t.drop n.start_byte).take (n.end_byte - n.start_byte)
      else rename_replacement n.text) ++
      renderPieces t n.end_byte rest

theorem take_split3 {t : Str} {pos s e : Nat} (h1 : pos ≤ s) (h2 : s ≤ e) :
    t.take e = t.take pos ++ (t.drop pos).take (s - pos) ++
      (t.drop s).take (e - s) := by
  have hA : t.take s ++ (t.drop s).take (e - s) = t.take e := by
    rw [← List.take_add]
    congr 1
    omega
  have hB : t.take pos ++ (t.drop pos).take (s - pos) = t.take s := by
    rw [← List.take_add]
    congr 1
    omega
  rw [← hA, ← hB, List.append_assoc]

theorem rename_fold_eq_render :
    ∀ (ids : List Node) (t : Str) (pos : Nat),
      ids.Pairwise (fun a b => a.end_byte ≤ b.start_byte) →
      (∀ n ∈ ids, pos ≤ n.start_byte ∧ n.start_byte ≤ n.end_byte ∧
        n.end_byte ≤ t.length) →
      (ids.reverse).foldl rename_step t = t.take pos ++ renderPieces t pos ids := by
  intro ids
  induction ids with
  | nil =>
    intro t pos _ _
    simp [renderPieces, List.take_append_drop]
  | cons a rest ih =>
    intro t pos hpair hwf
    have hrest := List.Pairwise.of_cons hpair
    have hhead : ∀ n ∈ rest, a.end_byte ≤ n.start_byte :=
      fun n hn => List.rel_of_pairwise_cons hpair hn
    obtain ⟨hpa, haa, hea⟩ := hwf a (by simp)
    have hwf2 : ∀ n ∈ rest, a.end_byte ≤ n.start_byte ∧
        n.start_byte ≤ n.end_byte ∧ n.end_byte ≤ t.length := by
      intro n hn
      obtain ⟨-, h2, h3⟩ := hwf n (by simp [hn])
      exact ⟨hhead n hn, h2, h3⟩
    have hR := ih t a.end_byte hrest hwf2
    have hlen : (t.take a.end_byte).length = a.end_byte := by
      rw [List.length_take]
      omega
    simp only [List.reverse_cons, List.foldl_append, List.foldl_cons,
      List.foldl_nil, hR]
    unfold rename_step
    split
    · -- excluded: the identifier's bytes stay in place
      rw [renderPieces]
      rw [take_split3 hpa haa (t := t)]
      simp only [List.append_assoc]
      rename_i hexc
      rw [hexc]
      simp
    · -- renamed: splice the new name over the span
      rw [renderPieces]
      unfold spliceAt
      rw [List.take_append_of_le_length (by omega),
        List.take_take, Nat.min_eq_left haa,
        List.drop_left' hlen]
      rw [take_split3 hpa (le_refl _) (t := t)]
      simp only [Nat.sub_self, List.take_zero, List.append_nil,
        List.append_assoc]
      rename_i hexc
      rw [if_neg hexc]

theorem Node.withText_text : ∀ (n : Node) (x : Str), (n.withText x).text = x
  | .mk _ _ _ _ _, _ => rfl

theorem sortByStartDesc_eq_reverse (ids : List Node)
    (hpair : ids.Pairwise (fun a b => a.end_byte ≤ b.start_byte))
    (hw : ∀ n ∈ ids, n.start_byte < n.end_byte) :
    sortByStartDesc ids = ids.reverse := by
  have hstrict : ids.Pairwise (fun a b => a.start_byte < b.start_byte) := by
    refine hpair.imp_of_mem ?_
    intro a b ha _ hr
    exact Nat.lt_of_lt_of_le (hw a ha) hr
  have hne : ids.Pairwise (fun a b => a.start_byte ≠ b.start_byte) :=
    hstrict.imp (fun h => Nat.ne_of_lt h)
  have hrevsorted : (ids.reverse).Sorted ltStartDesc := by
    rw [List.Sorted, List.pairwise_reverse]
    exact hstrict
  have hperm2 : (sortByStartDesc ids).Perm ids :=
    List.perm_insertionSort byStartDesc ids
  have hne2 : (sortByStartDesc ids).Pairwise
      (fun a b => a.start_byte ≠ b.start_byte) :=
    (hperm2.pairwise_iff (fun h h' => h (h'.symm))).mpr hne
  have hsorted : (sortByStartDesc ids).Sorted byStartDesc :=
    List.sorted_insertionSort byStartDesc ids
  have hstrict2 : (sortByStartDesc ids).Sorted ltStartDesc := by
    refine (pairwise_and_of_pairwise hsorted hne2).imp ?_
    intro a b h
    exact Nat.lt_of_le_of_ne h.1 (fun hh => h.2 hh.symm)
  exact List.eq_of_perm_of_sorted
    (hperm2.trans (List.reverse_perm ids).symm) hstrict2 hrevsorted

/-- C10: the rename pass replaces every identifier occurrence whose name is
outside the fixed exclusion list by exactly the original name followed by
_new — hence equal original names always receive equal new names — and
leaves every excluded identifier, and all text between identifiers,
byte-for-byte unchanged: for identifier spans in document order, pairwise
disjoint, nonempty and inside the root text, the pass output is the
canonical segment interleaving renderPieces. -/
theorem C10_rename_consistent (t : Node)
    (hpair : (find_identifiers t).Pairwise
      (fun a b => a.end_byte ≤ b.start_byte))
    (hw : ∀ n ∈ find_identifiers t, n.start_byte < n.end_byte)
    (hb : ∀ n ∈ find_identifiers t, n.end_byte ≤ t.text.length) :
    (transform_names t).text = renderPieces t.text 0 (find_identifiers t) ∧
    (∀ name : Str, isExcludedName name = false →
      rename_replacement name = name ++ "_new".toList) ∧
    (∀ a b : Node, a.text = b.text →
      rename_replacement a.text = rename_replacement b.text) := by
  refine ⟨?_, fun name _ => rfl, fun a b h => by rw [h]⟩
  unfold transform_names
  dsimp only
  split
  · rename_i hnil
    rw [hnil]
    simp [renderPieces]
  · rw [Node.withText_text, sortByStartDesc_eq_reverse _ hpair hw,
      rename_fold_eq_render (find_identifiers t) t.text 0 hpair ?_]
    · simp
    · intro n hn
      exact ⟨Nat.zero_le _, Nat.le_of_lt (hw n hn), hb n hn⟩

/-- The identifier foo, renamed by the pass. -/
def w10foo : Node := .mk "identifier" 0 3 "foo".toList []

/-- The identifier main, excluded from renaming. -/
def w10main : Node := .mk "identifier" 6 10 "main".toList []

/-- A small tree with one renamed and one excluded identifier. -/
def w10tree : Node :=
  .mk "translation_unit" 0 13 "foo = main ;;".toList [w10foo, w10main]

theorem C10_rename_consistent_witness :
    (transform_names w10tree).text =
      renderPieces w10tree.text 0 (find_identifiers w10tree) ∧
    (∀ name : Str, isExcludedName name = false →
      rename_replacement name = name ++ "_new".toList) ∧
    (∀ a b : Node, a.text = b.text →
      rename_replacement a.text = rename_replacement b.text) :=
  C10_rename_consistent w10tree (by decide) (by decide) (by decide)
